import Mathlib

/-!
Verification of the core codecs of the `mainline_client` BitTorrent DHT client:
the bencode decoder (`src/messages/bencode.rs`), the KRPC message codec
(`src/messages/mod.rs`), the base32/hex decoders (`src/encodings.rs`), the
magnet URI parser (`src/magnet.rs`) and the BEP 42 node-ID derivation
(`src/main.rs`).

Byte buffers are modelled as `List Nat` (each element a byte value `< 256`).
Rust `Result<_, DecodingError>` values are modelled by `RRes`, which has a
third outcome `panic` for executions in which the Rust code would panic
(failed `assert!`, out-of-bounds `split_at`, integer underflow).
-/

set_option maxHeartbeats 1000000
set_option maxRecDepth 8000

abbrev Bytes := List Nat

/-- The `DecodingError` enum of `src/messages/bencode.rs`. -/
inductive DecodingError where
  | unknownError
  | missingRequiredField
  | requiredFieldOfWrongType
  | invalidStringLength
  | invalidInteger
  | unexpectedEOF
deriving Repr, DecidableEq

/-- Outcome of running a fallible piece of Rust code: an `Ok` value, a
returned `DecodingError`, or a panic. -/
inductive RRes (α : Type) where
  | ok (a : α)
  | err (e : DecodingError)
  | panic
deriving Repr, DecidableEq

def RRes.map {α β : Type} (f : α → β) : RRes α → RRes β
  | .ok a => .ok (f a)
  | .err e => .err e
  | .panic => .panic

/-- Model of `slice::splitn(2, |x| *x == sep)` when both `next()` calls
succeed: `some (before, after)` for the first occurrence of `sep`, `none`
when `sep` does not occur (the second `next()` returns `None`). -/
def splitOnce (sep : Nat) : Bytes → Option (Bytes × Bytes)
  | [] => none
  | a :: rest =>
    if a = sep then some ([], rest)
    else (splitOnce sep rest).map (fun p => (a :: p.1, p.2))

/-- Value of an ASCII decimal digit byte. -/
def digitVal (c : Nat) : Option Nat :=
  if 0x30 ≤ c ∧ c ≤ 0x39 then some (c - 0x30) else none

/-- One step of decimal accumulation over an optional accumulator. -/
def digitFold (acc : Option Nat) (c : Nat) : Option Nat :=
  match acc, digitVal c with
  | some a, some d => some (a * 10 + d)
  | _, _ => none

/-- Value of a nonempty all-digit byte string (unbounded accumulation). -/
def rawDigits (l : Bytes) : Option Nat :=
  if l = [] then none else l.foldl digitFold (some 0)

/-- Model of `str::parse::<usize>` on the raw bytes (64-bit `usize`):
optional `+` sign, at least one ASCII digit, value below `2^64`.
A non-UTF-8 byte string can never be all digits, so the preceding
`from_utf8` check in the Rust code is subsumed. -/
def parseUsize (l : Bytes) : Option Nat :=
  let core :=
    match l with
    | 0x2b :: rest => rawDigits rest
    | _ => rawDigits l
  core.bind (fun n => if n < 2 ^ 64 then some n else none)

/-- Model of `str::parse::<i64>` on the raw bytes: optional sign, at least
one ASCII digit, value in the `i64` range. -/
def parseI64 (l : Bytes) : Option Int :=
  let core : Option (Bool × Nat) :=
    match l with
    | 0x2b :: rest => (rawDigits rest).map (fun n => (false, n))
    | 0x2d :: rest => (rawDigits rest).map (fun n => (true, n))
    | _ => (rawDigits l).map (fun n => (false, n))
  core.bind (fun p =>
    if p.1 then
      if p.2 ≤ 2 ^ 63 then some (-(p.2 : Int)) else none
    else if p.2 < 2 ^ 63 then some ((p.2 : Int)) else none)

/-- Whether a continuation byte of a UTF-8 sequence is in range. -/
def utf8Cont (c : Nat) : Bool := 0x80 ≤ c ∧ c ≤ 0xbf

/-- Model of the validity check performed by `String::from_utf8`. -/
def utf8Valid : Bytes → Bool
  | [] => true
  | c :: rest =>
    if c < 0x80 then utf8Valid rest
    else if 0xc2 ≤ c ∧ c ≤ 0xdf then
      match rest with
      | c1 :: r => utf8Cont c1 && utf8Valid r
      | [] => false
    else if c = 0xe0 then
      match rest with
      | c1 :: c2 :: r => (0xa0 ≤ c1 ∧ c1 ≤ 0xbf : Bool) && utf8Cont c2 && utf8Valid r
      | _ => false
    else if (0xe1 ≤ c ∧ c ≤ 0xec) ∨ c = 0xee ∨ c = 0xef then
      match rest with
      | c1 :: c2 :: r => utf8Cont c1 && utf8Cont c2 && utf8Valid r
      | _ => false
    else if c = 0xed then
      match rest with
      | c1 :: c2 :: r => (0x80 ≤ c1 ∧ c1 ≤ 0x9f : Bool) && utf8Cont c2 && utf8Valid r
      | _ => false
    else if c = 0xf0 then
      match rest with
      | c1 :: c2 :: c3 :: r =>
        (0x90 ≤ c1 ∧ c1 ≤ 0xbf : Bool) && utf8Cont c2 && utf8Cont c3 && utf8Valid r
      | _ => false
    else if 0xf1 ≤ c ∧ c ≤ 0xf3 then
      match rest with
      | c1 :: c2 :: c3 :: r => utf8Cont c1 && utf8Cont c2 && utf8Cont c3 && utf8Valid r
      | _ => false
    else if c = 0xf4 then
      match rest with
      | c1 :: c2 :: c3 :: r =>
        (0x80 ≤ c1 ∧ c1 ≤ 0x8f : Bool) && utf8Cont c2 && utf8Cont c3 && utf8Valid r
      | _ => false
    else false

/-- `Bencode::eat_integer` (`src/messages/bencode.rs:60-73`).  The two
`assert!` statements are modelled as panics; `splitn(2, b'e')` is modelled
by `splitOnce`; on success the leading `i` is dropped from the digits. -/
def eatInteger (buf : Bytes) : RRes (Bytes × Bytes) :=
  if buf.length < 3 then .panic
  else if buf.head? ≠ some 0x69 then .panic
  else
    match splitOnce 0x65 buf with
    | none => .err .unexpectedEOF
    | some (intPart, rest) => .ok (intPart.tail, rest)

/-- `Bencode::eat_str` (`src/messages/bencode.rs:129-148`).  `splitn(2, b':')`
finds the length prefix; `from_utf8` + `parse::<usize>` are modelled by
`parseUsize`; `split_at` panics when fewer than `len` bytes remain. -/
def eatStr (buf : Bytes) : RRes (Bytes × Bytes) :=
  match splitOnce 0x3a buf with
  | none => .err .unexpectedEOF
  | some (keyLen, restOfKey) =>
    match parseUsize keyLen with
    | none => .err .invalidStringLength
    | some n =>
      if restOfKey.length < n then .panic
      else .ok (restOfKey.take n, restOfKey.drop n)

theorem splitOnce_length {sep : Nat} :
    ∀ {l b c : Bytes}, splitOnce sep l = some (b, c) → b.length + 1 + c.length = l.length := by
  intro l
  induction l with
  | nil => intro b c h; simp [splitOnce] at h
  | cons a rest ih =>
    intro b c h
    by_cases ha : a = sep
    · simp [splitOnce, ha] at h
      obtain ⟨h1, h2⟩ := h
      subst h1; subst h2; simp; omega
    · simp only [splitOnce, ha, if_false] at h
      cases hsp : splitOnce sep rest with
      | none => simp [hsp] at h
      | some p =>
        obtain ⟨b', c'⟩ := p
        simp [hsp] at h
        obtain ⟨h1, h2⟩ := h
        have := ih hsp
        subst h1; subst h2
        simp at this ⊢
        omega

theorem eatStr_shrinks {buf s rest : Bytes} (h : eatStr buf = .ok (s, rest)) :
    rest.length < buf.length := by
  unfold eatStr at h
  cases hsp : splitOnce 0x3a buf with
  | none => simp [hsp] at h
  | some p =>
    obtain ⟨keyLen, restOfKey⟩ := p
    have hlen := splitOnce_length hsp
    simp only [hsp] at h
    cases hpu : parseUsize keyLen with
    | none => simp [hpu] at h
    | some n =>
      simp only [hpu] at h
      by_cases hlt : restOfKey.length < n
      · simp [hlt] at h
      · simp [hlt] at h
        obtain ⟨h1, h2⟩ := h
        subst h2
        simp
        omega

theorem eatInteger_shrinks {buf s rest : Bytes} (h : eatInteger buf = .ok (s, rest)) :
    rest.length < buf.length := by
  unfold eatInteger at h
  by_cases h3 : buf.length < 3
  · simp [h3] at h
  · simp only [h3, if_false] at h
    by_cases hh : buf.head? = some 0x69
    · simp [hh] at h
      cases hsp : splitOnce 0x65 buf with
      | none => simp [hsp] at h
      | some p =>
        obtain ⟨intPart, rest'⟩ := p
        have hlen := splitOnce_length hsp
        simp [hsp] at h
        obtain ⟨h1, h2⟩ := h
        subst h2
        omega
    · simp [hh] at h

/-- A decoded bencode `Value` (`src/messages/bencode.rs:186-191`).  A `Dict`
or `List` value carries its lazy cursor: the byte slice starting just after
the opening `d`/`l`, which extends to the end of the enclosing buffer. -/
inductive BValue where
  | str (s : Bytes)
  | int (i : Int)
  | dict (cursor : Bytes)
  | list (cursor : Bytes)
deriving Repr, DecidableEq

mutual

/-- `Bencode::eat_any` (`src/messages/bencode.rs:150-179`): dispatch on the
first byte.  The returned remainder carries a proof that it is strictly
shorter than the input, which justifies termination of the scanning loops. -/
def eatAny (buf : Bytes) : RRes (BValue × { l : Bytes // l.length < buf.length }) :=
  match hh : buf.head? with
  | some c =>
    if c = 0x64 then
      match eatDict buf with
      | .ok (d, r) => .ok (.dict d, r)
      | .err e => .err e
      | .panic => .panic
    else if 0x30 ≤ c ∧ c ≤ 0x39 then
      match hs : eatStr buf with
      | .ok (s, r) => .ok (.str s, ⟨r, eatStr_shrinks hs⟩)
      | .err e => .err e
      | .panic => .panic
    else if c = 0x6c then
      match eatList buf with
      | .ok (l, r) => .ok (.list l, r)
      | .err e => .err e
      | .panic => .panic
    else if c = 0x69 then
      match hi : eatInteger buf with
      | .ok (ds, r) =>
        match parseI64 ds with
        | some v => .ok (.int v, ⟨r, eatInteger_shrinks hi⟩)
        | none => .err .invalidInteger
      | .err e => .err e
      | .panic => .panic
    else .err .unknownError
  | none => .err .unknownError
termination_by (buf.length, 1)

/-- `Bencode::eat_dict` (`src/messages/bencode.rs:75-100`): two `assert!`
checks (panic), then a full scan of the body; the body cursor must stop on
an `e`, otherwise `UnknownError`. -/
def eatDict (buf : Bytes) : RRes (Bytes × { l : Bytes // l.length < buf.length }) :=
  if hlen : buf.length < 2 then .panic
  else if buf.head? ≠ some 0x64 then .panic
  else
    match hsc : dictScan buf.tail with
    | .ok fin =>
      match hfin : fin.val.head? with
      | some 0x65 =>
        .ok (buf.tail,
          ⟨fin.val.tail, by
            have h1 := fin.property
            have h2 : fin.val.tail.length ≤ fin.val.length := by
              cases hv : fin.val <;> simp
            simp at h1
            omega⟩)
      | _ => .err .unknownError
    | .err e => .err e
    | .panic => .panic
termination_by (buf.length, 0)

/-- `Bencode::eat_list` (`src/messages/bencode.rs:102-127`), analogous to
`eat_dict`. -/
def eatList (buf : Bytes) : RRes (Bytes × { l : Bytes // l.length < buf.length }) :=
  if hlen : buf.length < 2 then .panic
  else if buf.head? ≠ some 0x6c then .panic
  else
    match hsc : listScan buf.tail with
    | .ok fin =>
      match hfin : fin.val.head? with
      | some 0x65 =>
        .ok (buf.tail,
          ⟨fin.val.tail, by
            have h1 := fin.property
            have h2 : fin.val.tail.length ≤ fin.val.length := by
              cases hv : fin.val <;> simp
            simp at h1
            omega⟩)
      | _ => .err .unknownError
    | .err e => .err e
    | .panic => .panic
termination_by (buf.length, 0)

/-- The `while iter.next().is_some() {}` scanning loop of `eat_dict`,
returning the final cursor position. -/
def dictScan (cur : Bytes) : RRes { l : Bytes // l.length ≤ cur.length } :=
  match hn : dictNext cur with
  | .ok none => .ok ⟨cur, le_refl _⟩
  | .ok (some (_, next)) =>
    match dictScan next.val with
    | .ok fin => .ok ⟨fin.val, by have := fin.property; have := next.property; omega⟩
    | .err e => .err e
    | .panic => .panic
  | .err e => .err e
  | .panic => .panic
termination_by (cur.length, 3)

/-- The scanning loop of `eat_list`. -/
def listScan (cur : Bytes) : RRes { l : Bytes // l.length ≤ cur.length } :=
  match hn : listNext cur with
  | .ok none => .ok ⟨cur, le_refl _⟩
  | .ok (some (_, next)) =>
    match listScan next.val with
    | .ok fin => .ok ⟨fin.val, by have := fin.property; have := next.property; omega⟩
    | .err e => .err e
    | .panic => .panic
  | .err e => .err e
  | .panic => .panic
termination_by (cur.length, 3)

/-- `<Dict as Iterator>::next` (`src/messages/bencode.rs:235-253`): stop on
end-of-buffer or `e`; a `DecodingError` from `eat_str`/`eat_any` silently
terminates the iteration; a panic propagates. -/
def dictNext (cur : Bytes) :
    RRes (Option ((Bytes × BValue) × { l : Bytes // l.length < cur.length })) :=
  match cur.head? with
  | none => .ok none
  | some c =>
    if c = 0x65 then .ok none
    else
      match hs : eatStr cur with
      | .err _ => .ok none
      | .panic => .panic
      | .ok (k, rest1) =>
        match ha : eatAny rest1 with
        | .err _ => .ok none
        | .panic => .panic
        | .ok (v, rest2) =>
          .ok (some ((k, v),
            ⟨rest2.val, by
              have h1 := rest2.property
              have h2 := eatStr_shrinks hs
              omega⟩))
termination_by (cur.length, 2)
decreasing_by
  have h2 := eatStr_shrinks hs
  omega

/-- `<List as Iterator>::next` (`src/messages/bencode.rs:270-284`). -/
def listNext (cur : Bytes) :
    RRes (Option (BValue × { l : Bytes // l.length < cur.length })) :=
  match cur.head? with
  | none => .ok none
  | some c =>
    if c = 0x65 then .ok none
    else
      match ha : eatAny cur with
      | .err _ => .ok none
      | .panic => .panic
      | .ok (v, rest) => .ok (some (v, rest))
termination_by (cur.length, 2)

end

/-- `eatAny` with the length certificate erased. -/
def eatAnyR (buf : Bytes) : RRes (BValue × Bytes) :=
  (eatAny buf).map (fun p => (p.1, p.2.val))

/-- `eatDict` with the length certificate erased. -/
def eatDictR (buf : Bytes) : RRes (Bytes × Bytes) :=
  (eatDict buf).map (fun p => (p.1, p.2.val))

/-- `eatList` with the length certificate erased. -/
def eatListR (buf : Bytes) : RRes (Bytes × Bytes) :=
  (eatList buf).map (fun p => (p.1, p.2.val))

/-- `dictScan` with the length certificate erased. -/
def dictScanR (cur : Bytes) : RRes Bytes :=
  (dictScan cur).map (fun p => p.val)

/-- `listScan` with the length certificate erased. -/
def listScanR (cur : Bytes) : RRes Bytes :=
  (listScan cur).map (fun p => p.val)

/-- `dictNext` with the length certificate erased. -/
def dictNextR (cur : Bytes) : RRes (Option ((Bytes × BValue) × Bytes)) :=
  (dictNext cur).map (fun o => o.map (fun p => (p.1, p.2.val)))

/-- `listNext` with the length certificate erased. -/
def listNextR (cur : Bytes) : RRes (Option (BValue × Bytes)) :=
  (listNext cur).map (fun o => o.map (fun p => (p.1, p.2.val)))

/-- `Bencode::as_dict` (`src/messages/bencode.rs:51-58`): the dictionary must
span the whole buffer, otherwise `UnknownError`. -/
def asDict (buf : Bytes) : RRes Bytes :=
  match eatDictR buf with
  | .ok (d, leftover) => if leftover.length > 0 then .err .unknownError else .ok d
  | .err e => .err e
  | .panic => .panic

/-- The `KRPCError` enum (`src/messages/mod.rs:4-11`); the message `String`
is modelled by its UTF-8 bytes. -/
inductive KRPCError where
  | unknownError (msg : Bytes)
  | genericError (msg : Bytes)
  | serverError (msg : Bytes)
  | protocolError (msg : Bytes)
  | methodUnknown (msg : Bytes)
deriving Repr, DecidableEq

/-- The `KRPCQuery` enum (`src/messages/mod.rs:13-26`); the `[u8; 20]`
references are modelled as byte lists (of length 20 whenever produced by
the decoder). -/
inductive KRPCQuery where
  | ping (id : Bytes)
  | findNode (id : Bytes) (target : Bytes)
  | getPeers (id : Bytes) (infoHash : Bytes)
deriving Repr, DecidableEq

/-- The `KRPCResponse` enum (`src/messages/mod.rs:35-50`). -/
inductive KRPCResponse where
  | ping (id : Bytes)
  | findNode (id : Bytes) (nodes : Bytes)
  | getPeers (id : Bytes) (token : Bytes)
deriving Repr, DecidableEq

/-- The `KRPCMessageDetails` enum (`src/messages/mod.rs:52-57`). -/
inductive KRPCMessageDetails where
  | error (e : KRPCError)
  | query (q : KRPCQuery)
  | response (r : KRPCResponse)
deriving Repr, DecidableEq

/-- The `KRPCMessage` struct (`src/messages/mod.rs:59-63`). -/
structure KRPCMessage where
  transaction_id : Bytes
  message : KRPCMessageDetails
deriving Repr, DecidableEq

/-- Decimal ASCII representation of a natural number (the `{}` format of
`usize` values in `format!`).  The fuel argument of the auxiliary function
is always sufficient, since a number `n` has at most `n + 1` digits. -/
def decReprAux : Nat → Nat → Bytes
  | 0, _ => []
  | fuel + 1, n =>
    if n < 10 then [0x30 + n]
    else decReprAux fuel (n / 10) ++ [0x30 + n % 10]

def decRepr (n : Nat) : Bytes := decReprAux (n + 1) n

/-- Decimal ASCII representation of an `i64` value (the `{}` format). -/
def intRepr (i : Int) : Bytes :=
  if i < 0 then 0x2d :: decRepr i.natAbs else decRepr i.toNat

/-- The message-type tag local enum of `from_bencode`
(`src/messages/mod.rs:163-168`). -/
inductive MessageType where
  | query
  | error
  | response
  | unknown
deriving Repr, DecidableEq

/-- The query-type tag local enum of `from_bencode`
(`src/messages/mod.rs:169-175`). -/
inductive QueryType where
  | ping
  | findNode
  | getPeers
  | announcePeer
  | unknown
deriving Repr, DecidableEq

/-- The local mutable state of `from_bencode` (`src/messages/mod.rs:176-185`). -/
structure KState where
  transaction_id : Option Bytes := none
  message_type : MessageType := .unknown
  query_type : QueryType := .unknown
  other_id : Option Bytes := none
  info_hash : Option Bytes := none
  target : Option Bytes := none
  token : Option Bytes := none
  nodes : Option Bytes := none
  error_details : Option KRPCError := none
deriving Repr, DecidableEq

/-- `to_20_bytes` (`src/messages/mod.rs:151-157`): `Some` exactly on
20-byte slices. -/
def to20Bytes (i : Bytes) : Option Bytes :=
  if i.length = 20 then some i else none

/-- Selection of the `KRPCError` kind from the truncated `u8` code
(`src/messages/mod.rs:214-220`). -/
def mkKRPCError (code : Nat) (msg : Bytes) : KRPCError :=
  if code = 201 then .genericError msg
  else if code = 202 then .serverError msg
  else if code = 203 then .protocolError msg
  else if code = 204 then .methodUnknown msg
  else .unknownError msg

/-- `i64 as u8` truncation: the low 8 bits of the two's complement value. -/
def i64AsU8 (v : Int) : Nat := (v.emod 256).toNat

/-- One step of the inner `for` loop over the `r` response dictionary
(`src/messages/mod.rs:231-252`). -/
def rStep (k : Bytes) (v : BValue) (st : KState) : RRes KState :=
  if k = [0x69, 0x64] then
    match v with
    | .str id => .ok { st with other_id := to20Bytes id }
    | _ => .err .requiredFieldOfWrongType
  else if k = [0x74, 0x6f, 0x6b, 0x65, 0x6e] then
    match v with
    | .str t => .ok { st with token := some t }
    | _ => .err .requiredFieldOfWrongType
  else if k = [0x6e, 0x6f, 0x64, 0x65, 0x73] then
    match v with
    | .str n => .ok { st with nodes := some n }
    | _ => .err .requiredFieldOfWrongType
  else .ok st

/-- The inner `for` loop over the `r` response dictionary. -/
def rLoop (cur : Bytes) (st : KState) : RRes KState :=
  match dictNext cur with
  | .panic => .panic
  | .err e => .err e
  | .ok none => .ok st
  | .ok (some ((k, v), next)) =>
    match rStep k v st with
    | .ok st2 => rLoop next.val st2
    | .err e => .err e
    | .panic => .panic
termination_by cur.length
decreasing_by exact next.property

/-- One step of the inner `for` loop over the `a` arguments dictionary
(`src/messages/mod.rs:253-274`). -/
def aStep (k : Bytes) (v : BValue) (st : KState) : RRes KState :=
  if k = [0x69, 0x64] then
    match v with
    | .str id => .ok { st with other_id := to20Bytes id }
    | _ => .err .requiredFieldOfWrongType
  else if k = [0x69, 0x6e, 0x66, 0x6f, 0x5f, 0x68, 0x61, 0x73, 0x68] then
    match v with
    | .str id => .ok { st with info_hash := to20Bytes id }
    | _ => .err .requiredFieldOfWrongType
  else if k = [0x74, 0x61, 0x72, 0x67, 0x65, 0x74] then
    match v with
    | .str id => .ok { st with target := to20Bytes id }
    | _ => .err .requiredFieldOfWrongType
  else .ok st

/-- The inner `for` loop over the `a` arguments dictionary. -/
def aLoop (cur : Bytes) (st : KState) : RRes KState :=
  match dictNext cur with
  | .panic => .panic
  | .err e => .err e
  | .ok none => .ok st
  | .ok (some ((k, v), next)) =>
    match aStep k v st with
    | .ok st2 => aLoop next.val st2
    | .err e => .err e
    | .panic => .panic
termination_by cur.length
decreasing_by exact next.property

/-- Handling of the `e` error-details value (`src/messages/mod.rs:200-223`):
the first two items of the list are taken; the first must be an integer
(truncated to `u8`), the second a string that is valid UTF-8. -/
def eDetails (cur : Bytes) (st : KState) : RRes KState :=
  match listNext cur with
  | .panic => .panic
  | .err e => .err e
  | .ok none => .err .requiredFieldOfWrongType
  | .ok (some (v1, cur2)) =>
    match listNext cur2.val with
    | .panic => .panic
    | .err e => .err e
    | .ok rawMessage =>
      match v1 with
      | .int v =>
        match rawMessage with
        | some (.str m, _) =>
          if utf8Valid m then
            .ok { st with error_details := some (mkKRPCError (i64AsU8 v) m) }
          else .err .requiredFieldOfWrongType
        | _ => .err .requiredFieldOfWrongType
      | _ => .err .requiredFieldOfWrongType

/-- One iteration of the top-level `for kv in top_level` loop of
`from_bencode` (`src/messages/mod.rs:188-277`): dispatch on the key. -/
def krpcStep (k : Bytes) (v : BValue) (st : KState) : RRes KState :=
  if k = [0x74] then
    match v with
    | .str s => .ok { st with transaction_id := some s }
    | _ => .err .requiredFieldOfWrongType
  else if k = [0x79] then
    match v with
    | .str s =>
      if s = [0x65] then .ok { st with message_type := .error }
      else if s = [0x71] then .ok { st with message_type := .query }
      else if s = [0x72] then .ok { st with message_type := .response }
      else .err .requiredFieldOfWrongType
    | _ => .err .requiredFieldOfWrongType
  else if k = [0x65] then
    match v with
    | .list cur => eDetails cur st
    | _ => .err .requiredFieldOfWrongType
  else if k = [0x71] then
    match v with
    | .str s =>
      if s = [0x70, 0x69, 0x6e, 0x67] then .ok { st with query_type := .ping }
      else if s = [0x66, 0x69, 0x6e, 0x64, 0x5f, 0x6e, 0x6f, 0x64, 0x65] then
        .ok { st with query_type := .findNode }
      else if s = [0x67, 0x65, 0x74, 0x5f, 0x70, 0x65, 0x65, 0x72, 0x73] then
        .ok { st with query_type := .getPeers }
      else if s = [0x61, 0x6e, 0x6e, 0x6f, 0x75, 0x6e, 0x63, 0x65, 0x5f,
          0x70, 0x65, 0x65, 0x72] then
        .ok { st with query_type := .getPeers }
      else .err .requiredFieldOfWrongType
    | _ => .err .requiredFieldOfWrongType
  else if k = [0x72] then
    match v with
    | .dict cur => rLoop cur st
    | _ => .err .requiredFieldOfWrongType
  else if k = [0x61] then
    match v with
    | .dict cur => aLoop cur st
    | _ => .err .requiredFieldOfWrongType
  else .ok st

/-- The top-level `for kv in top_level` loop of `from_bencode`. -/
def krpcLoop (cur : Bytes) (st : KState) : RRes KState :=
  match dictNext cur with
  | .panic => .panic
  | .err e => .err e
  | .ok none => .ok st
  | .ok (some ((k, v), next)) =>
    match krpcStep k v st with
    | .ok st2 => krpcLoop next.val st2
    | .err e => .err e
    | .panic => .panic
termination_by cur.length
decreasing_by exact next.property

/-- Construction of the final `KRPCMessage` from the accumulated state
(`src/messages/mod.rs:279-323`). -/
def finalizeMessage (st : KState) : RRes KRPCMessage :=
  match st.transaction_id with
  | none => .err .missingRequiredField
  | some tx =>
    match st.message_type with
    | .error =>
      match st.error_details with
      | some e => .ok ⟨tx, .error e⟩
      | none => .err .missingRequiredField
    | .query =>
      match st.query_type with
      | .ping =>
        match st.other_id with
        | some id => .ok ⟨tx, .query (.ping id)⟩
        | none => .err .missingRequiredField
      | .getPeers =>
        match st.other_id with
        | none => .err .missingRequiredField
        | some id =>
          match st.info_hash with
          | some ih => .ok ⟨tx, .query (.getPeers id ih)⟩
          | none => .err .missingRequiredField
      | .findNode =>
        match st.other_id with
        | none => .err .missingRequiredField
        | some id =>
          match st.target with
          | some t => .ok ⟨tx, .query (.findNode id t)⟩
          | none => .err .missingRequiredField
      | _ => .err .missingRequiredField
    | .response =>
      match st.token with
      | some tk =>
        match st.other_id with
        | some id => .ok ⟨tx, .response (.getPeers id tk)⟩
        | none => .err .missingRequiredField
      | none =>
        match st.nodes with
        | some ns =>
          match st.other_id with
          | some id => .ok ⟨tx, .response (.findNode id ns)⟩
          | none => .err .missingRequiredField
        | none =>
          match st.other_id with
          | some id => .ok ⟨tx, .response (.ping id)⟩
          | none => .err .missingRequiredField
    | .unknown => .err .missingRequiredField

/-- `KRPCMessage::from_bencode` (`src/messages/mod.rs:159-325`). -/
def fromBencode (buf : Bytes) : RRes KRPCMessage :=
  match asDict buf with
  | .panic => .panic
  | .err e => .err e
  | .ok d =>
    match krpcLoop d {} with
    | .panic => .panic
    | .err e => .err e
    | .ok st => finalizeMessage st

/-- `KRPCMessage::to_bencode` (`src/messages/mod.rs:65-149`), translated
piece by piece from the `format!`/`extend` calls; the string literals are
spelled as ASCII byte lists. -/
def toBencode (m : KRPCMessage) : Bytes :=
  0x64 ::
  (match m.message with
   | .error e =>
     (match e with
      | .unknownError msg =>
        [0x31, 0x3a, 0x65, 0x6c, 0x69, 0x32, 0x30, 0x31, 0x65] ++
          decRepr msg.length ++ 0x3a :: msg ++ [0x65]
      | .genericError msg =>
        [0x31, 0x3a, 0x65, 0x6c, 0x69, 0x32, 0x30, 0x31, 0x65] ++
          decRepr msg.length ++ 0x3a :: msg ++ [0x65]
      | .serverError msg =>
        [0x31, 0x3a, 0x65, 0x6c, 0x69, 0x32, 0x30, 0x32, 0x65] ++
          decRepr msg.length ++ 0x3a :: msg ++ [0x65]
      | .protocolError msg =>
        [0x31, 0x3a, 0x65, 0x6c, 0x69, 0x32, 0x30, 0x33, 0x65] ++
          decRepr msg.length ++ 0x3a :: msg ++ [0x65]
      | .methodUnknown msg =>
        [0x31, 0x3a, 0x65, 0x6c, 0x69, 0x32, 0x30, 0x34, 0x65] ++
          decRepr msg.length ++ 0x3a :: msg ++ [0x65])
   | .query q =>
     (match q with
      | .ping id =>
        [0x31, 0x3a, 0x61, 0x64, 0x32, 0x3a, 0x69, 0x64, 0x32, 0x30, 0x3a] ++ id ++
          [0x65, 0x31, 0x3a, 0x71, 0x34, 0x3a, 0x70, 0x69, 0x6e, 0x67]
      | .getPeers id ih =>
        [0x31, 0x3a, 0x61, 0x64, 0x32, 0x3a, 0x69, 0x64, 0x32, 0x30, 0x3a] ++ id ++
          [0x39, 0x3a, 0x69, 0x6e, 0x66, 0x6f, 0x5f, 0x68, 0x61, 0x73, 0x68,
           0x32, 0x30, 0x3a] ++ ih ++
          [0x65, 0x31, 0x3a, 0x71, 0x39, 0x3a, 0x67, 0x65, 0x74, 0x5f,
           0x70, 0x65, 0x65, 0x72, 0x73]
      | .findNode id t =>
        [0x31, 0x3a, 0x61, 0x64, 0x32, 0x3a, 0x69, 0x64, 0x32, 0x30, 0x3a] ++ id ++
          [0x36, 0x3a, 0x74, 0x61, 0x72, 0x67, 0x65, 0x74, 0x32, 0x30, 0x3a] ++ t ++
          [0x65, 0x31, 0x3a, 0x71, 0x39, 0x3a, 0x66, 0x69, 0x6e, 0x64, 0x5f,
           0x6e, 0x6f, 0x64, 0x65])
   | .response r =>
     (match r with
      | .ping id =>
        [0x31, 0x3a, 0x72, 0x64, 0x32, 0x3a, 0x69, 0x64, 0x32, 0x30, 0x3a] ++ id ++
          [0x65]
      | .getPeers id tok =>
        [0x31, 0x3a, 0x72, 0x64, 0x32, 0x3a, 0x69, 0x64, 0x32, 0x30, 0x3a] ++ id ++
          [0x35, 0x3a, 0x74, 0x6f, 0x6b, 0x65, 0x6e] ++ decRepr tok.length ++
          0x3a :: tok ++ [0x65]
      | .findNode id nodes =>
        [0x31, 0x3a, 0x72, 0x64, 0x32, 0x3a, 0x69, 0x64, 0x32, 0x30, 0x3a] ++ id ++
          [0x35, 0x3a, 0x6e, 0x6f, 0x64, 0x65, 0x73] ++ decRepr nodes.length ++
          0x3a :: nodes ++ [0x65])) ++
  [0x31, 0x3a, 0x74] ++ decRepr m.transaction_id.length ++
  0x3a :: m.transaction_id ++
  [0x31, 0x3a, 0x79, 0x31, 0x3a] ++
  [match m.message with
   | .error _ => 0x65
   | .query _ => 0x71
   | .response _ => 0x72] ++
  [0x65]

/-- The bencode encoding of a byte string: decimal length, `:`, raw bytes. -/
def encStr (s : Bytes) : Bytes := decRepr s.length ++ 0x3a :: s

/-- Description of a bencode value, used to build well-formed datagrams
symbolically. -/
inductive VDesc where
  | str (s : Bytes)
  | int (i : Int)
  | list (items : List VDesc)
  | dict (pairs : List (Bytes × VDesc))

mutual

/-- Byte encoding of a described value. -/
def vdEnc : VDesc → Bytes
  | .str s => encStr s
  | .int i => 0x69 :: intRepr i ++ [0x65]
  | .list items => 0x6c :: vdEncItems items ++ [0x65]
  | .dict prs => 0x64 :: vdEncPairs prs ++ [0x65]

/-- Byte encoding of a list body. -/
def vdEncItems : List VDesc → Bytes
  | [] => []
  | v :: vs => vdEnc v ++ vdEncItems vs

/-- Byte encoding of a dictionary body. -/
def vdEncPairs : List (Bytes × VDesc) → Bytes
  | [] => []
  | p :: ps => encStr p.1 ++ vdEnc p.2 ++ vdEncPairs ps

end

/-- Well-formedness of a described value: string lengths fit in `usize` and
integers fit in `i64`. -/
inductive WfV : VDesc → Prop where
  | str : ∀ s : Bytes, s.length < 2 ^ 64 → WfV (.str s)
  | int : ∀ i : Int, -(2 ^ 63) ≤ i → i < 2 ^ 63 → WfV (.int i)
  | list : ∀ items : List VDesc, (∀ v ∈ items, WfV v) → WfV (.list items)
  | dict : ∀ prs : List (Bytes × VDesc),
      (∀ p ∈ prs, p.1.length < 2 ^ 64) → (∀ p ∈ prs, WfV p.2) → WfV (.dict prs)

/-- Well-formedness of a dictionary body. -/
def WfPairs (prs : List (Bytes × VDesc)) : Prop :=
  ∀ p ∈ prs, p.1.length < 2 ^ 64 ∧ WfV p.2

/-- The `BValue` produced by `eat_any` for a described value whose encoding
is followed by `r` in the buffer (dict/list cursors extend past their own
terminator into `r`). -/
def valOf (d : VDesc) (r : Bytes) : BValue :=
  match d with
  | .str s => .str s
  | .int i => .int i
  | .list items => .list (vdEncItems items ++ 0x65 :: r)
  | .dict prs => .dict (vdEncPairs prs ++ 0x65 :: r)

/-- A whole datagram: a top-level dictionary with the described pairs. -/
def encDatagram (prs : List (Bytes × VDesc)) : Bytes :=
  0x64 :: vdEncPairs prs ++ [0x65]

/-- Spec-level model of one step of the inner `r`-dictionary loop. -/
def rStepD (k : Bytes) (d : VDesc) (st : KState) : RRes KState :=
  rStep k (valOf d []) st

/-- Spec-level model of one step of the inner `a`-dictionary loop. -/
def aStepD (k : Bytes) (d : VDesc) (st : KState) : RRes KState :=
  aStep k (valOf d []) st

/-- Spec-level fold of the inner `r`-dictionary loop over descriptions. -/
def runRPairs : List (Bytes × VDesc) → KState → RRes KState
  | [], st => .ok st
  | p :: ps, st =>
    match rStepD p.1 p.2 st with
    | .ok st2 => runRPairs ps st2
    | .err e => .err e
    | .panic => .panic

/-- Spec-level fold of the inner `a`-dictionary loop over descriptions. -/
def runAPairs : List (Bytes × VDesc) → KState → RRes KState
  | [], st => .ok st
  | p :: ps, st =>
    match aStepD p.1 p.2 st with
    | .ok st2 => runAPairs ps st2
    | .err e => .err e
    | .panic => .panic

/-- Spec-level model of the `e` error-details handling over descriptions:
the first two described items play the roles of code and message. -/
def eDetailsD (items : List VDesc) (st : KState) : RRes KState :=
  match items with
  | [] => .err .requiredFieldOfWrongType
  | v1 :: rest =>
    match v1 with
    | .int v =>
      match rest with
      | .str m :: _ =>
        if utf8Valid m then
          .ok { st with error_details := some (mkKRPCError (i64AsU8 v) m) }
        else .err .requiredFieldOfWrongType
      | _ => .err .requiredFieldOfWrongType
    | _ => .err .requiredFieldOfWrongType

/-- Spec-level model of one step of the top-level `from_bencode` loop over a
described pair. -/
def stepD (k : Bytes) (d : VDesc) (st : KState) : RRes KState :=
  if k = [0x74] then
    match d with
    | .str s => .ok { st with transaction_id := some s }
    | _ => .err .requiredFieldOfWrongType
  else if k = [0x79] then
    match d with
    | .str s =>
      if s = [0x65] then .ok { st with message_type := .error }
      else if s = [0x71] then .ok { st with message_type := .query }
      else if s = [0x72] then .ok { st with message_type := .response }
      else .err .requiredFieldOfWrongType
    | _ => .err .requiredFieldOfWrongType
  else if k = [0x65] then
    match d with
    | .list items => eDetailsD items st
    | _ => .err .requiredFieldOfWrongType
  else if k = [0x71] then
    match d with
    | .str s =>
      if s = [0x70, 0x69, 0x6e, 0x67] then .ok { st with query_type := .ping }
      else if s = [0x66, 0x69, 0x6e, 0x64, 0x5f, 0x6e, 0x6f, 0x64, 0x65] then
        .ok { st with query_type := .findNode }
      else if s = [0x67, 0x65, 0x74, 0x5f, 0x70, 0x65, 0x65, 0x72, 0x73] then
        .ok { st with query_type := .getPeers }
      else if s = [0x61, 0x6e, 0x6e, 0x6f, 0x75, 0x6e, 0x63, 0x65, 0x5f,
          0x70, 0x65, 0x65, 0x72] then
        .ok { st with query_type := .getPeers }
      else .err .requiredFieldOfWrongType
    | _ => .err .requiredFieldOfWrongType
  else if k = [0x72] then
    match d with
    | .dict iprs => runRPairs iprs st
    | _ => .err .requiredFieldOfWrongType
  else if k = [0x61] then
    match d with
    | .dict iprs => runAPairs iprs st
    | _ => .err .requiredFieldOfWrongType
  else .ok st

/-- Spec-level fold of the top-level `from_bencode` loop over descriptions. -/
def runPairs : List (Bytes × VDesc) → KState → RRes KState
  | [], st => .ok st
  | p :: ps, st =>
    match stepD p.1 p.2 st with
    | .ok st2 => runPairs ps st2
    | .err e => .err e
    | .panic => .panic

/-- The `EncodingError` enum of `src/encodings.rs`. -/
inductive EncodingError where
  | invalidHashCharacter
  | invalidHashLength
deriving Repr, DecidableEq

/-- `hex_to_nibble` (`src/encodings.rs:11-25`, duplicated at
`src/magnet.rs:34-48`): `none` models the `InvalidHashCharacter` error. -/
def hexToNibble (h : Nat) : Option Nat :=
  if 0x30 ≤ h ∧ h ≤ 0x39 then some (h - 0x30)
  else if 0x61 ≤ h ∧ h ≤ 0x66 then some (h - 0x61 + 10)
  else if 0x41 ≤ h ∧ h ≤ 0x46 then some (h - 0x41 + 10)
  else none

/-- `hex_to_byte` (`src/encodings.rs:28-30`). -/
def hexToByte (b1 b2 : Nat) : Option Nat :=
  (hexToNibble b1).bind (fun n1 => (hexToNibble b2).map (fun n2 => n1 * 16 + n2))

/-- The `chunks(2)` + `hex_to_byte` pipeline of `bytes_from_hex`; the input
always has even length at the call site. -/
def hexPairs : Bytes → Except EncodingError Bytes
  | [] => .ok []
  | [_] => .error .invalidHashLength
  | b1 :: b2 :: rest =>
    match hexToByte b1 b2 with
    | none => .error .invalidHashCharacter
    | some b => (hexPairs rest).map (fun t => b :: t)

/-- `bytes_from_hex` (`src/encodings.rs:32-39`, duplicated at
`src/magnet.rs:55-67`). -/
def bytesFromHex (LEN : Nat) (hex : Bytes) : Except EncodingError Bytes :=
  if hex.length ≠ 2 * LEN then .error .invalidHashLength
  else hexPairs hex

/-- `base32_decode_char` (`src/encodings.rs:41-58`, duplicated at
`src/magnet.rs:69-86`).  Note the loose upper bounds `0x87` and `0x67`
taken verbatim from the source. -/
def base32DecodeChar (h : Nat) : Option Nat :=
  if 0x61 ≤ h ∧ h ≤ 0x87 then some (h - 0x61)
  else if 0x41 ≤ h ∧ h ≤ 0x67 then some (h - 0x41)
  else if 0x32 ≤ h ∧ h ≤ 0x37 then some (h - 0x32 + 26)
  else none

/-- `destructure_byte` (`src/encodings.rs:78-87`): the high and low
contributions of one base32 character.  `(val << 3)` truncates to `u8`
before `wrapping_shr`; `checked_shl` yields 0 for shift amounts `≥ 8`. -/
def destructureByte (offsetInChunk : Nat) (byte : Nat) : Option (Nat × Nat) :=
  let outputMod := offsetInChunk * 5 % 8
  (base32DecodeChar byte).map (fun val =>
    (val * 8 % 256 / 2 ^ outputMod,
     if 8 ≤ 3 + (8 - outputMod) then 0 else val * 2 ^ (3 + (8 - outputMod)) % 256))

/-- The first loop of `bytes_from_base32` (`src/encodings.rs:89-96`),
iterating `count` indices starting at `i`. -/
def b32Main (bytes : Bytes) : Nat → Nat → List Nat → Except EncodingError (List Nat)
  | _, 0, out => .ok out
  | i, count + 1, out =>
    match destructureByte (i % 8) (bytes.getD i 0) with
    | none => .error .invalidHashCharacter
    | some td =>
      let loc := i * 5 / 8
      let out1 := out.set loc (out.getD loc 0 ||| td.1)
      let out2 := out1.set (loc + 1) (out1.getD (loc + 1) 0 ||| td.2)
      b32Main bytes (i + 1) count out2

/-- The second loop of `bytes_from_base32` (`src/encodings.rs:97-107`): the
low contribution of a character overlapping the last output byte must be
zero. -/
def b32Tail (bytes : Bytes) : Nat → Nat → List Nat → Except EncodingError (List Nat)
  | _, 0, out => .ok out
  | i, count + 1, out =>
    match destructureByte (i % 8) (bytes.getD i 0) with
    | none => .error .invalidHashCharacter
    | some td =>
      let loc := i * 5 / 8
      let out1 := out.set loc (out.getD loc 0 ||| td.1)
      if td.2 ≠ 0 then .error .invalidHashCharacter
      else b32Tail bytes (i + 1) count out1

/-- The padding loop of `bytes_from_base32` (`src/encodings.rs:108-113`). -/
def b32Pad (bytes : Bytes) : Nat → Nat → Except EncodingError Unit
  | _, 0 => .ok ()
  | i, count + 1 =>
    if bytes.getD i 0 ≠ 0x3d then .error .invalidHashCharacter
    else b32Pad bytes (i + 1) count

/-- `bytes_from_base32` (`src/encodings.rs:60-116`, duplicated at
`src/magnet.rs:88-145`).  `LEN - 1` uses Nat subtraction; in Rust the same
expression underflows (a panic) for `LEN = 0`, so theorems about this
function assume `0 < LEN`. -/
def bytesFromBase32 (LEN : Nat) (enc : Bytes) : Except EncodingError Bytes :=
  if enc.length ≠ (LEN + 4) / 5 * 8 then .error .invalidHashLength
  else
    let firstPad := (LEN * 8 + 4) / 5
    let lastByteStart := ((LEN - 1) * 8 + 4) / 5
    match b32Main enc 0 lastByteStart (List.replicate LEN 0) with
    | .error e => .error e
    | .ok out1 =>
      match b32Tail enc lastByteStart (firstPad - lastByteStart) out1 with
      | .error e => .error e
      | .ok out2 =>
        match b32Pad enc firstPad (enc.length - firstPad) with
        | .error e => .error e
        | .ok _ => .ok out2

/-- The base32 alphabet as stated by the specification (`A-Z`, `a-z`,
`2-7`); used to state claim C6 in the spec's words. -/
def specB32Alphabet (c : Nat) : Prop :=
  (0x41 ≤ c ∧ c ≤ 0x5a) ∨ (0x61 ≤ c ∧ c ≤ 0x7a) ∨ (0x32 ≤ c ∧ c ≤ 0x37)

instance (c : Nat) : Decidable (specB32Alphabet c) := by
  unfold specB32Alphabet; infer_instance

/-- Bitwise xor of the low `fuel` bits of two naturals, written as a
structural recursion so that it evaluates inside the kernel. -/
def xor32Aux : Nat → Nat → Nat → Nat
  | 0, _, _ => 0
  | fuel + 1, a, b => (a % 2 + b % 2) % 2 + 2 * xor32Aux fuel (a / 2) (b / 2)

/-- Xor of two 32-bit values (exact on inputs below `2 ^ 32`). -/
def xor32 (a b : Nat) : Nat := xor32Aux 32 a b

/-- Modelled from the spec: one bit-reflected round of CRC32C with the
Castagnoli polynomial `0x82f63b78`.  The `crc32c` crate used by
`src/main.rs:44` is an external dependency; the spec fixes the function as
CRC32C (Castagnoli). -/
def crcStep (crc : Nat) : Nat :=
  if crc % 2 = 1 then xor32 (crc / 2) 0x82f63b78 else crc / 2

/-- `n` rounds of `crcStep`. -/
def crc8Rounds : Nat → Nat → Nat
  | 0, c => c
  | n + 1, c => crc8Rounds n (crcStep c)

/-- Modelled from the spec: `crc32c::crc32c`, the Castagnoli CRC-32 of a
byte string (init `0xffffffff`, reflected, final xor `0xffffffff`). -/
def crc32c (data : Bytes) : Nat :=
  xor32 (data.foldl (fun c b => crc8Rounds 8 (xor32 c b)) 0xffffffff) 0xffffffff

/-- `node_id` (`src/main.rs:35-51`) with the random buffer made an explicit
`seed` argument: mask the IP, fold in `r = seed[19] & 7`, take CRC32C, and
overwrite the first three bytes of the seed. -/
def nodeId (ip : Bytes) (seed : Bytes) : Bytes :=
  let r := seed.getD 19 0 % 8
  let hashInput :=
    [(0x03 &&& ip.getD 0 0) ||| r * 32, 0x0f &&& ip.getD 1 0,
     0x3f &&& ip.getD 2 0, 0xff &&& ip.getD 3 0]
  let crc := crc32c hashInput
  ((seed.set 0 (crc / 2 ^ 24 % 256)).set 1 (crc / 2 ^ 16 % 256)).set 2
    ((crc / 2 ^ 8 % 256 &&& 0xf8) ||| seed.getD 2 0 % 8)

/-- The `MagnetURIError` enum of `src/magnet.rs:3-12`. -/
inductive MagnetURIError where
  | invalidHashCharacter
  | invalidHashLength
  | invalidURIScheme
  | invalidStartCharacter
  | unknownHashFunction
  | invalidUseOfReservedChar
  | notImplemented
deriving Repr, DecidableEq

def mapEncErr : EncodingError → MagnetURIError
  | .invalidHashCharacter => .invalidHashCharacter
  | .invalidHashLength => .invalidHashLength

/-- `bytes_from_hex` of `src/magnet.rs:55-67`: byte-for-byte the same
algorithm as the `src/encodings.rs` copy, with `MagnetURIError` errors. -/
def mBytesFromHex (LEN : Nat) (hex : Bytes) : Except MagnetURIError Bytes :=
  (bytesFromHex LEN hex).mapError mapEncErr

/-- `bytes_from_base32` of `src/magnet.rs:88-145`: byte-for-byte the same
algorithm as the `src/encodings.rs` copy, with `MagnetURIError` errors. -/
def mBytesFromBase32 (LEN : Nat) (enc : Bytes) : Except MagnetURIError Bytes :=
  (bytesFromBase32 LEN enc).mapError mapEncErr

/-- `str::split` over all occurrences of a byte, with sufficient fuel (each
split consumes the separator, so `l.length + 1` iterations always finish). -/
def splitAllAux (sep : Nat) : Nat → Bytes → List Bytes
  | 0, l => [l]
  | fuel + 1, l =>
    match splitOnce sep l with
    | none => [l]
    | some (b, c) => b :: splitAllAux sep fuel c

def splitAll (sep : Nat) (l : Bytes) : List Bytes := splitAllAux sep (l.length + 1) l

/-- The `%`-segment decoding loop of `uri_decode_value`
(`src/magnet.rs:163-170`): each segment after a `%` must start with two hex
digits; the decoded byte is followed by the raw remainder of the segment. -/
def percentSegs : List Bytes → Except MagnetURIError Bytes
  | [] => .ok []
  | seg :: rest =>
    if seg.length < 2 then .error .invalidUseOfReservedChar
    else
      match hexToByte (seg.getD 0 0) (seg.getD 1 0) with
      | none => .error .invalidHashCharacter
      | some b => (percentSegs rest).map (fun t => b :: seg.drop 2 ++ t)

/-- `uri_decode_value` (`src/magnet.rs:147-178`): reject reserved chars,
replace `+` by space, decode `%HH` escapes, and require the result to be
valid UTF-8 (`NotImplemented` otherwise). -/
def uriDecodeValue (value : Bytes) : Except MagnetURIError Bytes :=
  if 0x23 ∈ value ∨ 0x3f ∈ value ∨ 0x26 ∈ value then .error .invalidUseOfReservedChar
  else
    let s := value.map (fun c => if c = 0x2b then 0x20 else c)
    match splitOnce 0x25 s with
    | none => .ok s
    | some (before, after) =>
      match percentSegs (splitAll 0x25 after) with
      | .error e => .error e
      | .ok decoded =>
        let ret := before ++ decoded
        if utf8Valid ret then .ok ret else .error .notImplemented

/-- The `MagnetHash` enum (`src/magnet.rs:180-186`). -/
inductive MagnetHash where
  | sha1 (b : Bytes)
  | md5 (b : Bytes)
  | btih (b : Bytes)
  | invalid
deriving Repr, DecidableEq

/-- `MagnetHash::from_str` (`src/magnet.rs:188-206`). -/
def magnetHashFromStr (s : Bytes) : Except MagnetURIError MagnetHash :=
  if s.take 9 = [0x75, 0x72, 0x6e, 0x3a, 0x73, 0x68, 0x61, 0x31, 0x3a] then
    (mBytesFromBase32 20 (s.drop 9)).map .sha1
  else if s.take 8 = [0x75, 0x72, 0x6e, 0x3a, 0x6d, 0x64, 0x35, 0x3a] then
    (mBytesFromHex 16 (s.drop 8)).map .md5
  else if s.take 9 = [0x75, 0x72, 0x6e, 0x3a, 0x62, 0x74, 0x69, 0x68, 0x3a] then
    if s.length = 49 then (mBytesFromHex 20 (s.drop 9)).map .btih
    else (mBytesFromBase32 20 (s.drop 9)).map .btih
  else .error .unknownHashFunction

/-- The `MagnetFile` struct (`src/magnet.rs:208-221`) with its `Default`. -/
structure MagnetFile where
  hash : MagnetHash := .invalid
  display_name : Bytes := []
deriving Repr, DecidableEq

/-- Lookup in the `HashMap<&str, MagnetFile>`, modelled as an association
list in insertion order. -/
def alLookup (k : Bytes) : List (Bytes × MagnetFile) → Option MagnetFile
  | [] => none
  | p :: ps => if p.1 = k then some p.2 else alLookup k ps

/-- In-place update of an existing entry (`get_mut`). -/
def alUpdate (k : Bytes) (f : MagnetFile → MagnetFile) :
    List (Bytes × MagnetFile) → List (Bytes × MagnetFile)
  | [] => []
  | p :: ps => if p.1 = k then (p.1, f p.2) :: ps else p :: alUpdate k f ps

/-- One `serialised_pair` iteration of `MagnetFiles::from_str`
(`src/magnet.rs:242-277`).  In the `dn` branch with no existing entry the
Rust code builds a fresh `MagnetFile`, sets its name and drops it without
inserting it into the map, so the model leaves `files` unchanged there. -/
def magnetPairStep (files : List (Bytes × MagnetFile)) (sp : Bytes) :
    Except MagnetURIError (List (Bytes × MagnetFile)) :=
  match splitOnce 0x3d sp with
  | none => .ok files
  | some (key, rawValue) =>
    match uriDecodeValue rawValue with
    | .error e => .error e
    | .ok value =>
      if key = [0x78, 0x74] ∨ key.take 3 = [0x78, 0x74, 0x2e] then
        let fileKey := if key.length < 3 then [0x31] else key.drop 3
        match magnetHashFromStr value with
        | .error e => .error e
        | .ok hash =>
          match alLookup fileKey files with
          | some _ => .ok (alUpdate fileKey (fun f => { f with hash := hash }) files)
          | none => .ok (files ++ [(fileKey, { hash := hash, display_name := [] })])
      else if key = [0x64, 0x6e] ∨ key.take 3 = [0x64, 0x6e, 0x2e] then
        let fileKey := if key.length < 3 then [0x31] else key.drop 3
        match alLookup fileKey files with
        | some _ =>
          .ok (alUpdate fileKey (fun f => { f with display_name := value }) files)
        | none => .ok files
      else .ok files

/-- The loop of `MagnetFiles::from_str` over the `&`-separated pairs. -/
def magnetLoop : List Bytes → List (Bytes × MagnetFile) →
    Except MagnetURIError (List (Bytes × MagnetFile))
  | [], files => .ok files
  | sp :: rest, files =>
    match magnetPairStep files sp with
    | .error e => .error e
    | .ok files2 => magnetLoop rest files2

/-- `MagnetFiles::from_str` (`src/magnet.rs:228-284`), returning the list
of files (the `HashMap` is modelled in insertion order). -/
def magnetFilesFromStr (s : Bytes) : Except MagnetURIError (List MagnetFile) :=
  if s.take 7 ≠ [0x6d, 0x61, 0x67, 0x6e, 0x65, 0x74, 0x3a] then
    .error .invalidURIScheme
  else if (s.drop 7).take 1 ≠ [0x3f] then .error .invalidStartCharacter
  else
    match magnetLoop (splitAll 0x26 (s.drop 8)) [] with
    | .error e => .error e
    | .ok files => .ok (files.map (fun kv => kv.2))

/-- The error datagram template of the spec (`y = e`, `e = [code, message]`,
transaction id `t`), expressed over described pairs. -/
def errDatagram (tx : Bytes) (code : Int) (msg : Bytes) : Bytes :=
  encDatagram
    [([0x65], .list [.int code, .str msg]), ([0x74], .str tx), ([0x79], .str [0x65])]

/-- An optional dictionary pair holding a string value under key `k`. -/
def optPair (k : Bytes) (o : Option Bytes) : List (Bytes × VDesc) :=
  match o with
  | some x => [(k, VDesc.str x)]
  | none => []

/-- The response-dictionary pairs of a `y = r` datagram with optional `id`,
`nodes` and `token` fields (in that key order). -/
def respPairs (idO nodesO tokenO : Option Bytes) : List (Bytes × VDesc) :=
  optPair [0x69, 0x64] idO ++ optPair [0x6e, 0x6f, 0x64, 0x65, 0x73] nodesO ++
    optPair [0x74, 0x6f, 0x6b, 0x65, 0x6e] tokenO

/-- A well-formed `y = r` response datagram with the given optional fields. -/
def respDatagram (tx : Bytes) (idO nodesO tokenO : Option Bytes) : Bytes :=
  encDatagram
    [([0x72], .dict (respPairs idO nodesO tokenO)), ([0x74], .str tx),
     ([0x79], .str [0x72])]

/-- The message variants supported by the round-trip property, with the side
conditions implicit in the Rust types: slice lengths are `usize` values,
20-byte fields have length 20, and error messages are `String`s (valid
UTF-8).  `UnknownError` is excluded: `to_bencode` emits it with code 201, so
it decodes back as `GenericError`. -/
def supportedMessage (m : KRPCMessage) : Prop :=
  m.transaction_id.length < 2 ^ 64 ∧
  (match m.message with
   | .error (.unknownError _) => False
   | .error (.genericError msg) => utf8Valid msg ∧ msg.length < 2 ^ 64
   | .error (.serverError msg) => utf8Valid msg ∧ msg.length < 2 ^ 64
   | .error (.protocolError msg) => utf8Valid msg ∧ msg.length < 2 ^ 64
   | .error (.methodUnknown msg) => utf8Valid msg ∧ msg.length < 2 ^ 64
   | .query (.ping id) => id.length = 20
   | .query (.findNode id t) => id.length = 20 ∧ t.length = 20
   | .query (.getPeers id ih) => id.length = 20 ∧ ih.length = 20
   | .response (.ping id) => id.length = 20
   | .response (.findNode id ns) => id.length = 20 ∧ ns.length < 2 ^ 64
   | .response (.getPeers id tk) => id.length = 20 ∧ tk.length < 2 ^ 64)

theorem digitFold_none (l : Bytes) : l.foldl digitFold none = none := by
  induction l with
  | nil => rfl
  | cons c t ih => simpa [digitFold] using ih

theorem decReprAux_ne_nil_digits :
    ∀ fuel n, n < fuel →
      decReprAux fuel n ≠ [] ∧ ∀ c ∈ decReprAux fuel n, 0x30 ≤ c ∧ c ≤ 0x39 := by
  intro fuel
  induction fuel with
  | zero => intro n h; omega
  | succ f ih =>
    intro n h
    by_cases h10 : n < 10
    · refine ⟨by simp [decReprAux, h10], ?_⟩
      intro c hc
      simp [decReprAux, h10] at hc
      omega
    · have hrec := ih (n / 10) (by omega)
      simp only [decReprAux, h10, if_false]
      constructor
      · simp
      · intro c hc
        rcases List.mem_append.mp hc with hm | hm
        · exact hrec.2 c hm
        · simp at hm
          omega

theorem decRepr_ne_nil (n : Nat) : decRepr n ≠ [] :=
  (decReprAux_ne_nil_digits (n + 1) n (by omega)).1

theorem decRepr_digits (n : Nat) : ∀ c ∈ decRepr n, 0x30 ≤ c ∧ c ≤ 0x39 :=
  (decReprAux_ne_nil_digits (n + 1) n (by omega)).2

theorem decReprAux_foldl :
    ∀ fuel n a, n < fuel →
      (decReprAux fuel n).foldl digitFold (some a) =
        some (a * 10 ^ (decReprAux fuel n).length + n) := by
  intro fuel
  induction fuel with
  | zero => intro n a h; omega
  | succ f ih =>
    intro n a h
    by_cases h10 : n < 10
    · have he : decReprAux (f + 1) n = [0x30 + n] := by
        simp [decReprAux, h10]
      have hdv : digitVal (0x30 + n) = some n := by
        simp [digitVal]
        omega
      rw [he]
      simp [digitFold, hdv]
    · have hrec := ih (n / 10) a (by omega)
      simp only [decReprAux, h10, if_false]
      rw [List.foldl_append, hrec]
      have hdv : digitVal (0x30 + n % 10) = some (n % 10) := by
        simp [digitVal]
        omega
      simp only [List.foldl_cons, List.foldl_nil, digitFold, hdv]
      have h1 : (a * 10 ^ (decReprAux f (n / 10)).length + n / 10) * 10 + n % 10 =
          a * 10 ^ ((decReprAux f (n / 10)).length + 1) + (n / 10 * 10 + n % 10) := by
        rw [pow_succ]
        ring
      simp only [List.length_append, List.length_cons, List.length_nil]
      rw [h1, Nat.div_add_mod']

theorem rawDigits_decRepr (n : Nat) : rawDigits (decRepr n) = some n := by
  unfold rawDigits
  rw [if_neg (decRepr_ne_nil n)]
  have := decReprAux_foldl (n + 1) n 0 (by omega)
  unfold decRepr
  rw [this]
  simp

theorem rawDigits_all_digits :
    ∀ (l : Bytes) (v : Nat), rawDigits l = some v → ∀ c ∈ l, 0x30 ≤ c ∧ c ≤ 0x39 := by
  have key : ∀ (l : Bytes) (a v : Nat), l.foldl digitFold (some a) = some v →
      ∀ c ∈ l, 0x30 ≤ c ∧ c ≤ 0x39 := by
    intro l
    induction l with
    | nil => intro a v h c hc; simp at hc
    | cons c0 t ih =>
      intro a v h c hc
      by_cases hd : 0x30 ≤ c0 ∧ c0 ≤ 0x39
      · rcases List.mem_cons.mp hc with hm | hm
        · subst hm; exact hd
        · have : digitFold (some a) c0 = some (a * 10 + (c0 - 0x30)) := by
            simp [digitFold, digitVal, hd]
          rw [List.foldl_cons, this] at h
          exact ih _ _ h c hm
      · have : digitFold (some a) c0 = none := by
          simp [digitFold, digitVal, hd]
        rw [List.foldl_cons, this, digitFold_none] at h
        exact absurd h (by simp)
  intro l v h c hc
  unfold rawDigits at h
  by_cases hl : l = []
  · subst hl; simp at hc
  · rw [if_neg hl] at h
    exact key l 0 v h c hc

theorem rawDigits_nil : rawDigits [] = none := rfl

theorem rawDigits_ne_nil {l : Bytes} {v : Nat} (h : rawDigits l = some v) : l ≠ [] := by
  intro he; subst he; simp [rawDigits_nil] at h

theorem parseUsize_not_plus (l : Bytes) (h : l.head? ≠ some 0x2b) :
    parseUsize l = (rawDigits l).bind (fun n => if n < 2 ^ 64 then some n else none) := by
  unfold parseUsize
  split
  · simp at h
  · rfl

theorem parseUsize_decRepr {n : Nat} (h : n < 2 ^ 64) : parseUsize (decRepr n) = some n := by
  have hne := decRepr_ne_nil n
  have hd := decRepr_digits n
  rw [parseUsize_not_plus]
  · rw [rawDigits_decRepr]
    have h' : n < 18446744073709551616 := by omega
    simp [h']
  · cases hl : decRepr n with
    | nil => exact absurd hl hne
    | cons c t =>
      have := hd c (by rw [hl]; simp)
      simp [hl]
      omega

theorem parseI64_chars {l : Bytes} {v : Int} (h : parseI64 l = some v) :
    l ≠ [] ∧ ∀ c ∈ l, c = 0x2b ∨ c = 0x2d ∨ (0x30 ≤ c ∧ c ≤ 0x39) := by
  rcases l with _ | ⟨c, t⟩
  · simp [parseI64, rawDigits] at h
  · refine ⟨by simp, ?_⟩
    by_cases hp : c = 0x2b
    · subst hp
      simp only [parseI64] at h
      cases hrd : rawDigits t with
      | none => rw [hrd] at h; simp at h
      | some n =>
        have hdig := rawDigits_all_digits t n hrd
        intro x hx
        rcases List.mem_cons.mp hx with hm | hm
        · left; exact hm
        · right; right; exact hdig x hm
    · by_cases hm2 : c = 0x2d
      · subst hm2
        simp only [parseI64] at h
        cases hrd : rawDigits t with
        | none => rw [hrd] at h; simp at h
        | some n =>
          have hdig := rawDigits_all_digits t n hrd
          intro x hx
          rcases List.mem_cons.mp hx with hm | hm
          · right; left; exact hm
          · right; right; exact hdig x hm
      · unfold parseI64 at h
        split at h
        · rename_i heq
          injection heq with h1 h2
          exact absurd h1 hp
        · rename_i heq
          injection heq with h1 h2
          exact absurd h1 hm2
        · cases hrd : rawDigits (c :: t) with
          | none => rw [hrd] at h; simp at h
          | some n =>
            have hdig := rawDigits_all_digits (c :: t) n hrd
            intro x hx
            right; right
            exact hdig x hx

theorem parseI64_intRepr {i : Int} (h1 : -(2 ^ 63) ≤ i) (h2 : i < 2 ^ 63) :
    parseI64 (intRepr i) = some i := by
  by_cases hneg : i < 0
  · have hrepr : intRepr i = 0x2d :: decRepr i.natAbs := by simp [intRepr, hneg]
    rw [hrepr]
    simp only [parseI64, rawDigits_decRepr, Option.map_some']
    have hle : i.natAbs ≤ 2 ^ 63 := by omega
    have habs : (i.natAbs : Int) = -i := Int.ofNat_natAbs_of_nonpos (by omega)
    have hle' : i.natAbs ≤ 9223372036854775808 := by omega
    simp [hle', habs]
  · have hrepr : intRepr i = decRepr i.toNat := by simp [intRepr, hneg]
    rw [hrepr]
    have hne := decRepr_ne_nil i.toNat
    have hd := decRepr_digits i.toNat
    unfold parseI64
    split
    · rename_i rest heq
      have : (0x2b : Nat) ∈ decRepr i.toNat := by rw [heq]; simp
      have := hd _ this
      omega
    · rename_i rest heq
      have : (0x2d : Nat) ∈ decRepr i.toNat := by rw [heq]; simp
      have := hd _ this
      omega
    · rw [rawDigits_decRepr]
      have hlt : i.toNat < 2 ^ 63 := by omega
      simp [hlt]
      omega

theorem splitOnce_append {sep : Nat} :
    ∀ {l1 : Bytes}, (∀ c ∈ l1, c ≠ sep) → ∀ l2 : Bytes,
      splitOnce sep (l1 ++ sep :: l2) = some (l1, l2) := by
  intro l1
  induction l1 with
  | nil => intro _ l2; simp [splitOnce]
  | cons a t ih =>
    intro h l2
    have ha : a ≠ sep := h a (by simp)
    have ht : ∀ c ∈ t, c ≠ sep := fun c hc => h c (by simp [hc])
    show splitOnce sep (a :: (t ++ sep :: l2)) = _
    unfold splitOnce
    rw [if_neg ha, ih ht l2]
    rfl

theorem eatStr_encStr {s : Bytes} (h : s.length < 2 ^ 64) (r : Bytes) :
    eatStr (encStr s ++ r) = .ok (s, r) := by
  have hassoc : encStr s ++ r = decRepr s.length ++ 0x3a :: (s ++ r) := by
    simp [encStr]
  rw [hassoc]
  have hdig := decRepr_digits s.length
  have hsp := @splitOnce_append 0x3a (decRepr s.length)
    (fun c hc => by have := hdig c hc; omega) (s ++ r)
  unfold eatStr
  rw [hsp]
  dsimp only
  rw [parseUsize_decRepr h]
  dsimp only
  have hlen : ¬ (s ++ r).length < s.length := by simp
  rw [if_neg hlen, List.take_left, List.drop_left]

theorem eatInteger_enc {ds : Bytes} {v : Int} (h : parseI64 ds = some v) (r : Bytes) :
    eatInteger (0x69 :: ds ++ 0x65 :: r) = .ok (ds, r) := by
  obtain ⟨hne, hch⟩ := parseI64_chars h
  have hlen : ¬ (0x69 :: ds ++ 0x65 :: r).length < 3 := by
    rcases ds with _ | ⟨c, t⟩
    · exact absurd rfl hne
    · simp
      omega
  have hsp : splitOnce 0x65 ((0x69 :: ds) ++ 0x65 :: r) = some (0x69 :: ds, r) := by
    apply splitOnce_append
    intro c hc
    rcases List.mem_cons.mp hc with hm | hm
    · omega
    · have := hch c hm
      omega
  unfold eatInteger
  rw [if_neg hlen]
  have hh : (0x69 :: ds ++ 0x65 :: r).head? = some 0x69 := by simp
  rw [hh]
  simp only [ne_eq, not_true_eq_false, if_false, reduceIte]
  rw [show 0x69 :: ds ++ 0x65 :: r = (0x69 :: ds) ++ 0x65 :: r from rfl, hsp]
  rfl

theorem eatAny_of_R {buf : Bytes} {v : BValue} {rest : Bytes}
    (h : eatAnyR buf = .ok (v, rest)) :
    ∃ hp : rest.length < buf.length, eatAny buf = .ok (v, ⟨rest, hp⟩) := by
  unfold eatAnyR at h
  cases he : eatAny buf with
  | ok p =>
    rw [he] at h
    simp [RRes.map] at h
    obtain ⟨h1, h2⟩ := h
    obtain ⟨v', l, hl⟩ := p
    simp at h1 h2
    subst h1
    subst h2
    exact ⟨hl, rfl⟩
  | err e => rw [he] at h; simp [RRes.map] at h
  | panic => rw [he] at h; simp [RRes.map] at h

theorem dictScan_of_R {cur fin : Bytes} (h : dictScanR cur = .ok fin) :
    ∃ hp : fin.length ≤ cur.length, dictScan cur = .ok ⟨fin, hp⟩ := by
  unfold dictScanR at h
  cases he : dictScan cur with
  | ok p =>
    rw [he] at h
    simp [RRes.map] at h
    obtain ⟨l, hl⟩ := p
    simp at h
    subst h
    exact ⟨hl, rfl⟩
  | err e => rw [he] at h; simp [RRes.map] at h
  | panic => rw [he] at h; simp [RRes.map] at h

theorem listScan_of_R {cur fin : Bytes} (h : listScanR cur = .ok fin) :
    ∃ hp : fin.length ≤ cur.length, listScan cur = .ok ⟨fin, hp⟩ := by
  unfold listScanR at h
  cases he : listScan cur with
  | ok p =>
    rw [he] at h
    simp [RRes.map] at h
    obtain ⟨l, hl⟩ := p
    simp at h
    subst h
    exact ⟨hl, rfl⟩
  | err e => rw [he] at h; simp [RRes.map] at h
  | panic => rw [he] at h; simp [RRes.map] at h

theorem dictNext_of_R {cur k : Bytes} {v : BValue} {next : Bytes}
    (h : dictNextR cur = .ok (some ((k, v), next))) :
    ∃ hp : next.length < cur.length, dictNext cur = .ok (some ((k, v), ⟨next, hp⟩)) := by
  unfold dictNextR at h
  cases he : dictNext cur with
  | ok o =>
    rw [he] at h
    simp [RRes.map] at h
    cases o with
    | none => simp at h
    | some p =>
      obtain ⟨⟨k', v'⟩, l, hl⟩ := p
      simp at h
      obtain ⟨⟨hk, hv⟩, hn⟩ := h
      subst hk
      subst hv
      obtain ⟨hn1, hn2⟩ := hn
      subst hn2
      exact ⟨hl, rfl⟩
  | err e => rw [he] at h; simp [RRes.map] at h
  | panic => rw [he] at h; simp [RRes.map] at h

theorem listNext_of_R {cur : Bytes} {v : BValue} {next : Bytes}
    (h : listNextR cur = .ok (some (v, next))) :
    ∃ hp : next.length < cur.length, listNext cur = .ok (some (v, ⟨next, hp⟩)) := by
  unfold listNextR at h
  cases he : listNext cur with
  | ok o =>
    rw [he] at h
    simp [RRes.map] at h
    cases o with
    | none => simp at h
    | some p =>
      obtain ⟨v', l, hl⟩ := p
      simp at h
      obtain ⟨hv, hn⟩ := h
      subst hv
      obtain ⟨hn1, hn2⟩ := hn
      subst hn2
      exact ⟨hl, rfl⟩
  | err e => rw [he] at h; simp [RRes.map] at h
  | panic => rw [he] at h; simp [RRes.map] at h

theorem eatAnyR_digit {buf : Bytes} {c : Nat} (hh : buf.head? = some c)
    (h1 : 0x30 ≤ c) (h2 : c ≤ 0x39) :
    eatAnyR buf = (eatStr buf).map (fun p => (BValue.str p.1, p.2)) := by
  unfold eatAnyR
  rw [eatAny]
  split
  · rename_i c' heq
    rw [hh] at heq
    injection heq with heq
    subst heq
    rw [if_neg (by omega), if_pos (by omega)]
    split
    · rename_i s r hs
      conv_rhs => rw [hs]
      rfl
    · rename_i e hs
      conv_rhs => rw [hs]
      rfl
    · rename_i hs
      conv_rhs => rw [hs]
      rfl
  · rename_i heq
    rw [hh] at heq
    exact absurd heq (by simp)

theorem eatAnyR_int {buf : Bytes} (hh : buf.head? = some 0x69) :
    eatAnyR buf =
      (match eatInteger buf with
       | .ok (ds, r) =>
         match parseI64 ds with
         | some v => .ok (.int v, r)
         | none => .err .invalidInteger
       | .err e => .err e
       | .panic => .panic) := by
  unfold eatAnyR
  rw [eatAny]
  split
  · rename_i c' heq
    rw [hh] at heq
    injection heq with heq
    subst heq
    rw [if_neg (by omega), if_neg (by omega), if_neg (by omega), if_pos rfl]
    split
    · rename_i ds r hi
      conv_rhs => rw [hi]
      dsimp only
      cases hp : parseI64 ds with
      | some v => rfl
      | none => rfl
    · rename_i e hi
      conv_rhs => rw [hi]
      rfl
    · rename_i hi
      conv_rhs => rw [hi]
      rfl
  · rename_i heq
    rw [hh] at heq
    exact absurd heq (by simp)

theorem eatAnyR_dict {buf : Bytes} (hh : buf.head? = some 0x64) :
    eatAnyR buf = (eatDictR buf).map (fun p => (BValue.dict p.1, p.2)) := by
  unfold eatAnyR eatDictR
  rw [eatAny]
  split
  · rename_i c' heq
    rw [hh] at heq
    injection heq with heq
    subst heq
    rw [if_pos rfl]
    cases hd : eatDict buf with
    | ok p => obtain ⟨d, r⟩ := p; rfl
    | err e => rfl
    | panic => rfl
  · rename_i heq
    rw [hh] at heq
    exact absurd heq (by simp)

theorem eatAnyR_list {buf : Bytes} (hh : buf.head? = some 0x6c) :
    eatAnyR buf = (eatListR buf).map (fun p => (BValue.list p.1, p.2)) := by
  unfold eatAnyR eatListR
  rw [eatAny]
  split
  · rename_i c' heq
    rw [hh] at heq
    injection heq with heq
    subst heq
    rw [if_neg (by omega), if_neg (by omega), if_pos rfl]
    cases hd : eatList buf with
    | ok p => obtain ⟨d, r⟩ := p; rfl
    | err e => rfl
    | panic => rfl
  · rename_i heq
    rw [hh] at heq
    exact absurd heq (by simp)

theorem eatDictR_body {body rest : Bytes} (h : dictScanR body = .ok (0x65 :: rest)) :
    eatDictR (0x64 :: body) = .ok (body, rest) := by
  obtain ⟨hp, hsc⟩ := dictScan_of_R h
  have hlen : ¬ (0x64 :: body).length < 2 := by
    simp at hp ⊢
    omega
  unfold eatDictR
  rw [eatDict]
  rw [dif_neg hlen, if_neg (by simp)]
  dsimp only [List.tail_cons]
  split
  · rename_i fin heqsc
    rw [hsc] at heqsc
    injection heqsc with heqsc
    subst heqsc
    split
    · rfl
    · rename_i hfin
      simp at hfin
  · rename_i e heqsc
    rw [hsc] at heqsc
    simp at heqsc
  · rename_i heqsc
    rw [hsc] at heqsc
    simp at heqsc

theorem eatListR_body {body rest : Bytes} (h : listScanR body = .ok (0x65 :: rest)) :
    eatListR (0x6c :: body) = .ok (body, rest) := by
  obtain ⟨hp, hsc⟩ := listScan_of_R h
  have hlen : ¬ (0x6c :: body).length < 2 := by
    simp at hp ⊢
    omega
  unfold eatListR
  rw [eatList]
  rw [dif_neg hlen, if_neg (by simp)]
  dsimp only [List.tail_cons]
  split
  · rename_i fin heqsc
    rw [hsc] at heqsc
    injection heqsc with heqsc
    subst heqsc
    split
    · rfl
    · rename_i hfin
      simp at hfin
  · rename_i e heqsc
    rw [hsc] at heqsc
    simp at heqsc
  · rename_i heqsc
    rw [hsc] at heqsc
    simp at heqsc

theorem dictScanR_none {cur : Bytes} (h : dictNextR cur = .ok none) :
    dictScanR cur = .ok cur := by
  have hn : dictNext cur = .ok none := by
    unfold dictNextR at h
    cases he : dictNext cur with
    | ok o =>
      rw [he] at h
      cases o with
      | none => rfl
      | some p => simp [RRes.map] at h
    | err e => rw [he] at h; simp [RRes.map] at h
    | panic => rw [he] at h; simp [RRes.map] at h
  unfold dictScanR
  rw [dictScan]
  split
  · rfl
  · rename_i p next heq
    rw [hn] at heq
    simp at heq
  · rename_i e heq
    rw [hn] at heq
    simp at heq
  · rename_i heq
    rw [hn] at heq
    simp at heq

theorem dictScanR_some {cur k : Bytes} {v : BValue} {next : Bytes}
    (h : dictNextR cur = .ok (some ((k, v), next))) :
    dictScanR cur = dictScanR next := by
  obtain ⟨hp, hn⟩ := dictNext_of_R h
  unfold dictScanR
  rw [dictScan]
  split
  · rename_i heq
    rw [hn] at heq
    simp at heq
  · rename_i p next' heq
    rw [hn] at heq
    have h2 : next' = ⟨next, hp⟩ :=
      congrArg Prod.snd (Option.some.inj (RRes.ok.inj heq)).symm
    subst h2
    cases hs : dictScan next with
    | ok fin => rfl
    | err e => rfl
    | panic => rfl
  · rename_i e heq
    rw [hn] at heq
    simp at heq
  · rename_i heq
    rw [hn] at heq
    simp at heq

theorem listScanR_none {cur : Bytes} (h : listNextR cur = .ok none) :
    listScanR cur = .ok cur := by
  have hn : listNext cur = .ok none := by
    unfold listNextR at h
    cases he : listNext cur with
    | ok o =>
      rw [he] at h
      cases o with
      | none => rfl
      | some p => simp [RRes.map] at h
    | err e => rw [he] at h; simp [RRes.map] at h
    | panic => rw [he] at h; simp [RRes.map] at h
  unfold listScanR
  rw [listScan]
  split
  · rfl
  · rename_i p next heq
    rw [hn] at heq
    simp at heq
  · rename_i e heq
    rw [hn] at heq
    simp at heq
  · rename_i heq
    rw [hn] at heq
    simp at heq

theorem listScanR_some {cur : Bytes} {v : BValue} {next : Bytes}
    (h : listNextR cur = .ok (some (v, next))) :
    listScanR cur = listScanR next := by
  obtain ⟨hp, hn⟩ := listNext_of_R h
  unfold listScanR
  rw [listScan]
  split
  · rename_i heq
    rw [hn] at heq
    simp at heq
  · rename_i p next' heq
    rw [hn] at heq
    have h2 : next' = ⟨next, hp⟩ :=
      congrArg Prod.snd (Option.some.inj (RRes.ok.inj heq)).symm
    subst h2
    cases hs : listScan next with
    | ok fin => rfl
    | err e => rfl
    | panic => rfl
  · rename_i e heq
    rw [hn] at heq
    simp at heq
  · rename_i heq
    rw [hn] at heq
    simp at heq

theorem dictNextR_stop {cur : Bytes} (h : cur.head? = some 0x65) :
    dictNextR cur = .ok none := by
  unfold dictNextR
  rw [dictNext]
  split
  · rfl
  · rename_i c heq
    rw [h] at heq
    injection heq with heq
    subst heq
    rw [if_pos rfl]
    rfl

theorem dictNextR_pair {cur : Bytes} {c : Nat} {k rest1 : Bytes} {v : BValue}
    {rest2 : Bytes} (hc : cur.head? = some c) (hce : c ≠ 0x65)
    (hs : eatStr cur = .ok (k, rest1)) (ha : eatAnyR rest1 = .ok (v, rest2)) :
    dictNextR cur = .ok (some ((k, v), rest2)) := by
  obtain ⟨hp, han⟩ := eatAny_of_R ha
  unfold dictNextR
  rw [dictNext]
  split
  · rename_i heq
    rw [hc] at heq
    exact absurd heq (by simp)
  · rename_i c' heq
    rw [hc] at heq
    injection heq with heq
    subst heq
    rw [if_neg hce]
    split
    · rename_i hs'
      rw [hs'] at hs
      simp at hs
    · rename_i hs'
      rw [hs'] at hs
      simp at hs
    · rename_i k' rest1' hs'
      rw [hs'] at hs
      injection hs with hs
      injection hs with hk hr
      subst hk
      subst hr
      rw [han]
      rfl

theorem listNextR_stop {cur : Bytes} (h : cur.head? = some 0x65) :
    listNextR cur = .ok none := by
  unfold listNextR
  rw [listNext]
  split
  · rfl
  · rename_i c heq
    rw [h] at heq
    injection heq with heq
    subst heq
    rw [if_pos rfl]
    rfl

theorem listNextR_item {cur : Bytes} {c : Nat} {v : BValue} {rest : Bytes}
    (hc : cur.head? = some c) (hce : c ≠ 0x65) (ha : eatAnyR cur = .ok (v, rest)) :
    listNextR cur = .ok (some (v, rest)) := by
  obtain ⟨hp, han⟩ := eatAny_of_R ha
  unfold listNextR
  rw [listNext]
  split
  · rename_i heq
    rw [hc] at heq
    exact absurd heq (by simp)
  · rename_i c' heq
    rw [hc] at heq
    injection heq with heq
    subst heq
    rw [if_neg hce, han]
    rfl

theorem krpcLoop_none {cur : Bytes} {st : KState} (h : dictNextR cur = .ok none) :
    krpcLoop cur st = .ok st := by
  have hn : dictNext cur = .ok none := by
    unfold dictNextR at h
    cases he : dictNext cur with
    | ok o =>
      rw [he] at h
      cases o with
      | none => rfl
      | some p => simp [RRes.map] at h
    | err e => rw [he] at h; simp [RRes.map] at h
    | panic => rw [he] at h; simp [RRes.map] at h
  rw [krpcLoop, hn]

theorem krpcLoop_some {cur k : Bytes} {v : BValue} {next : Bytes} {st : KState}
    (h : dictNextR cur = .ok (some ((k, v), next))) :
    krpcLoop cur st =
      (match krpcStep k v st with
       | .ok st2 => krpcLoop next st2
       | .err e => .err e
       | .panic => .panic) := by
  obtain ⟨hp, hn⟩ := dictNext_of_R h
  rw [krpcLoop, hn]

theorem rLoop_none {cur : Bytes} {st : KState} (h : dictNextR cur = .ok none) :
    rLoop cur st = .ok st := by
  have hn : dictNext cur = .ok none := by
    unfold dictNextR at h
    cases he : dictNext cur with
    | ok o =>
      rw [he] at h
      cases o with
      | none => rfl
      | some p => simp [RRes.map] at h
    | err e => rw [he] at h; simp [RRes.map] at h
    | panic => rw [he] at h; simp [RRes.map] at h
  rw [rLoop, hn]

theorem rLoop_some {cur k : Bytes} {v : BValue} {next : Bytes} {st : KState}
    (h : dictNextR cur = .ok (some ((k, v), next))) :
    rLoop cur st =
      (match rStep k v st with
       | .ok st2 => rLoop next st2
       | .err e => .err e
       | .panic => .panic) := by
  obtain ⟨hp, hn⟩ := dictNext_of_R h
  rw [rLoop, hn]

theorem aLoop_none {cur : Bytes} {st : KState} (h : dictNextR cur = .ok none) :
    aLoop cur st = .ok st := by
  have hn : dictNext cur = .ok none := by
    unfold dictNextR at h
    cases he : dictNext cur with
    | ok o =>
      rw [he] at h
      cases o with
      | none => rfl
      | some p => simp [RRes.map] at h
    | err e => rw [he] at h; simp [RRes.map] at h
    | panic => rw [he] at h; simp [RRes.map] at h
  rw [aLoop, hn]

theorem aLoop_some {cur k : Bytes} {v : BValue} {next : Bytes} {st : KState}
    (h : dictNextR cur = .ok (some ((k, v), next))) :
    aLoop cur st =
      (match aStep k v st with
       | .ok st2 => aLoop next st2
       | .err e => .err e
       | .panic => .panic) := by
  obtain ⟨hp, hn⟩ := dictNext_of_R h
  rw [aLoop, hn]

theorem decRepr_head (n : Nat) :
    ∃ c t, decRepr n = c :: t ∧ 0x30 ≤ c ∧ c ≤ 0x39 := by
  cases hl : decRepr n with
  | nil => exact absurd hl (decRepr_ne_nil n)
  | cons c t =>
    have := decRepr_digits n c (by rw [hl]; simp)
    exact ⟨c, t, rfl, this.1, this.2⟩

theorem encStr_append_head (s r : Bytes) :
    ∃ c t, encStr s ++ r = c :: t ∧ 0x30 ≤ c ∧ c ≤ 0x39 := by
  obtain ⟨c, t, heq, h1, h2⟩ := decRepr_head s.length
  exact ⟨c, t ++ 0x3a :: s ++ r, by simp [encStr, heq], h1, h2⟩

theorem vdEnc_append_head (d : VDesc) (r : Bytes) :
    ∃ c t, vdEnc d ++ r = c :: t ∧ c ≠ 0x65 := by
  cases d with
  | str s =>
    obtain ⟨c, t, heq, h1, h2⟩ := encStr_append_head s r
    exact ⟨c, t, heq, by omega⟩
  | int i => exact ⟨0x69, intRepr i ++ [0x65] ++ r, by simp [vdEnc], by omega⟩
  | list items => exact ⟨0x6c, vdEncItems items ++ [0x65] ++ r, by simp [vdEnc], by omega⟩
  | dict prs => exact ⟨0x64, vdEncPairs prs ++ [0x65] ++ r, by simp [vdEnc], by omega⟩

mutual

theorem eatAnyR_vdEnc : ∀ (d : VDesc), WfV d → ∀ r : Bytes,
    eatAnyR (vdEnc d ++ r) = .ok (valOf d r, r)
  | .str s, h, r => by
    have hlen : s.length < 2 ^ 64 := by cases h; assumption
    obtain ⟨c, t, heq, h1, h2⟩ := encStr_append_head s r
    rw [show vdEnc (.str s) = encStr s from rfl]
    rw [eatAnyR_digit (by rw [heq]; rfl) h1 h2, eatStr_encStr hlen r]
    rfl
  | .int i, h, r => by
    have hi : parseI64 (intRepr i) = some i := by
      cases h with
      | int _ h1 h2 => exact parseI64_intRepr h1 h2
    have hassoc : vdEnc (.int i) ++ r = 0x69 :: intRepr i ++ 0x65 :: r := by
      simp [vdEnc]
    rw [hassoc, eatAnyR_int (by simp), eatInteger_enc hi r]
    dsimp only
    rw [hi]
    rfl
  | .list items, h, r => by
    have hmem : ∀ v ∈ items, WfV v := by
      cases h with
      | list _ hm => exact hm
    have hassoc : vdEnc (.list items) ++ r = 0x6c :: (vdEncItems items ++ 0x65 :: r) := by
      simp [vdEnc]
    rw [hassoc, eatAnyR_list (by simp),
      eatListR_body (listScanR_items items hmem r)]
    rfl
  | .dict prs, h, r => by
    have hmem : WfPairs prs := by
      cases h with
      | dict _ hk hv => exact fun p hp => ⟨hk p hp, hv p hp⟩
    have hassoc : vdEnc (.dict prs) ++ r = 0x64 :: (vdEncPairs prs ++ 0x65 :: r) := by
      simp [vdEnc]
    rw [hassoc, eatAnyR_dict (by simp),
      eatDictR_body (dictScanR_pairs prs hmem r)]
    rfl
termination_by d => sizeOf d

theorem dictScanR_pairs : ∀ (prs : List (Bytes × VDesc)), WfPairs prs → ∀ r : Bytes,
    dictScanR (vdEncPairs prs ++ 0x65 :: r) = .ok (0x65 :: r)
  | [], _, r => by
    rw [show vdEncPairs [] = ([] : Bytes) from rfl]
    exact dictScanR_none (dictNextR_stop (by simp))
  | (k, d) :: ps, h, r => by
    have hk : k.length < 2 ^ 64 := (h (k, d) (by simp)).1
    have hd : WfV d := (h (k, d) (by simp)).2
    have hps : WfPairs ps := fun q hq => h q (by simp [hq])
    have hassoc : vdEncPairs ((k, d) :: ps) ++ 0x65 :: r =
        encStr k ++ (vdEnc d ++ (vdEncPairs ps ++ 0x65 :: r)) := by
      simp [vdEncPairs]
    obtain ⟨c, t, hhead, hd1, hd2⟩ :=
      encStr_append_head k (vdEnc d ++ (vdEncPairs ps ++ 0x65 :: r))
    have hnext : dictNextR (encStr k ++ (vdEnc d ++ (vdEncPairs ps ++ 0x65 :: r))) =
        .ok (some ((k, valOf d (vdEncPairs ps ++ 0x65 :: r)),
          vdEncPairs ps ++ 0x65 :: r)) :=
      dictNextR_pair (c := c) (by rw [hhead]; rfl) (by omega)
        (eatStr_encStr hk (vdEnc d ++ (vdEncPairs ps ++ 0x65 :: r)))
        (eatAnyR_vdEnc d hd (vdEncPairs ps ++ 0x65 :: r))
    rw [hassoc, dictScanR_some hnext]
    exact dictScanR_pairs ps hps r
termination_by prs => sizeOf prs

theorem listScanR_items : ∀ (items : List VDesc), (∀ v ∈ items, WfV v) → ∀ r : Bytes,
    listScanR (vdEncItems items ++ 0x65 :: r) = .ok (0x65 :: r)
  | [], _, r => by
    rw [show vdEncItems [] = ([] : Bytes) from rfl]
    exact listScanR_none (listNextR_stop (by simp))
  | d :: ds, h, r => by
    have hd : WfV d := h d (by simp)
    have hds : ∀ v ∈ ds, WfV v := fun q hq => h q (by simp [hq])
    have hassoc : vdEncItems (d :: ds) ++ 0x65 :: r =
        vdEnc d ++ (vdEncItems ds ++ 0x65 :: r) := by
      simp [vdEncItems]
    obtain ⟨c, t, hhead, hne⟩ := vdEnc_append_head d (vdEncItems ds ++ 0x65 :: r)
    have hnext : listNextR (vdEnc d ++ (vdEncItems ds ++ 0x65 :: r)) =
        .ok (some (valOf d (vdEncItems ds ++ 0x65 :: r), vdEncItems ds ++ 0x65 :: r)) :=
      listNextR_item (c := c) (by rw [hhead]; rfl) hne
        (eatAnyR_vdEnc d hd (vdEncItems ds ++ 0x65 :: r))
    rw [hassoc, listScanR_some hnext]
    exact listScanR_items ds hds r
termination_by items => sizeOf items

end

theorem listNext_none_of_R {cur : Bytes} (h : listNextR cur = .ok none) :
    listNext cur = .ok none := by
  unfold listNextR at h
  cases he : listNext cur with
  | ok o =>
    rw [he] at h
    cases o with
    | none => rfl
    | some p => simp [RRes.map] at h
  | err e => rw [he] at h; simp [RRes.map] at h
  | panic => rw [he] at h; simp [RRes.map] at h

theorem rStep_valOf {k : Bytes} (d : VDesc) {r r' : Bytes} {st : KState} :
    rStep k (valOf d r) st = rStep k (valOf d r') st := by
  cases d <;> (unfold rStep; split_ifs <;> rfl)

theorem aStep_valOf {k : Bytes} (d : VDesc) {r r' : Bytes} {st : KState} :
    aStep k (valOf d r) st = aStep k (valOf d r') st := by
  cases d <;> (unfold aStep; split_ifs <;> rfl)

theorem eDetails_eq (cur : Bytes) (st : KState) :
    eDetails cur st =
      (match listNextR cur with
       | .panic => .panic
       | .err e => .err e
       | .ok none => .err .requiredFieldOfWrongType
       | .ok (some (v1, cur2)) =>
         match listNextR cur2 with
         | .panic => .panic
         | .err e => .err e
         | .ok rawMessage =>
           match v1 with
           | .int v =>
             match rawMessage with
             | some (.str m, _) =>
               if utf8Valid m then
                 .ok { st with error_details := some (mkKRPCError (i64AsU8 v) m) }
               else .err .requiredFieldOfWrongType
             | _ => .err .requiredFieldOfWrongType
           | _ => .err .requiredFieldOfWrongType) := by
  unfold eDetails listNextR
  cases h1 : listNext cur with
  | panic => rfl
  | err e => rfl
  | ok o =>
    cases o with
    | none => rfl
    | some p =>
      obtain ⟨v1, cur2⟩ := p
      dsimp [RRes.map]
      cases h2 : listNext cur2.val with
      | panic => rfl
      | err e => rfl
      | ok o2 =>
        cases o2 with
        | none => cases v1 <;> rfl
        | some q =>
          obtain ⟨bv, rest⟩ := q
          cases v1 <;> cases bv <;> rfl

theorem eDetails_enc : ∀ (items : List VDesc), (∀ v ∈ items, WfV v) →
    ∀ (junk : Bytes) (st : KState),
      eDetails (vdEncItems items ++ 0x65 :: junk) st = eDetailsD items st := by
  intro items h junk st
  rw [eDetails_eq]
  cases items with
  | nil =>
    rw [@listNextR_stop (vdEncItems [] ++ 0x65 :: junk) (by simp [vdEncItems])]
    rfl
  | cons v1 rest =>
    have hv1 : WfV v1 := h v1 (by simp)
    have hassoc : vdEncItems (v1 :: rest) ++ 0x65 :: junk =
        vdEnc v1 ++ (vdEncItems rest ++ 0x65 :: junk) := by
      simp [vdEncItems]
    obtain ⟨c, t, hhead, hne⟩ := vdEnc_append_head v1 (vdEncItems rest ++ 0x65 :: junk)
    rw [hassoc, listNextR_item (c := c) (by rw [hhead]; rfl) hne
      (eatAnyR_vdEnc v1 hv1 (vdEncItems rest ++ 0x65 :: junk))]
    dsimp only
    cases rest with
    | nil =>
      rw [@listNextR_stop (vdEncItems [] ++ 0x65 :: junk) (by simp [vdEncItems])]
      cases v1 <;> rfl
    | cons v2 rest2 =>
      have hv2 : WfV v2 := h v2 (by simp)
      have hassoc2 : vdEncItems (v2 :: rest2) ++ 0x65 :: junk =
          vdEnc v2 ++ (vdEncItems rest2 ++ 0x65 :: junk) := by
        simp [vdEncItems]
      obtain ⟨c2, t2, hhead2, hne2⟩ :=
        vdEnc_append_head v2 (vdEncItems rest2 ++ 0x65 :: junk)
      rw [hassoc2, listNextR_item (c := c2) (by rw [hhead2]; rfl) hne2
        (eatAnyR_vdEnc v2 hv2 (vdEncItems rest2 ++ 0x65 :: junk))]
      cases v1 <;> cases v2 <;> rfl

theorem rLoop_encPairs : ∀ (prs : List (Bytes × VDesc)), WfPairs prs →
    ∀ (junk : Bytes) (st : KState),
      rLoop (vdEncPairs prs ++ 0x65 :: junk) st = runRPairs prs st := by
  intro prs
  induction prs with
  | nil =>
    intro h junk st
    exact rLoop_none (dictNextR_stop (by simp [vdEncPairs]))
  | cons p ps ih =>
    intro h junk st
    obtain ⟨k, d⟩ := p
    have hk : k.length < 2 ^ 64 := (h (k, d) (by simp)).1
    have hd : WfV d := (h (k, d) (by simp)).2
    have hps : WfPairs ps := fun q hq => h q (by simp [hq])
    have hassoc : vdEncPairs ((k, d) :: ps) ++ 0x65 :: junk =
        encStr k ++ (vdEnc d ++ (vdEncPairs ps ++ 0x65 :: junk)) := by
      simp [vdEncPairs]
    obtain ⟨c, t, hhead, hd1, hd2⟩ :=
      encStr_append_head k (vdEnc d ++ (vdEncPairs ps ++ 0x65 :: junk))
    have hnext : dictNextR (encStr k ++ (vdEnc d ++ (vdEncPairs ps ++ 0x65 :: junk))) =
        .ok (some ((k, valOf d (vdEncPairs ps ++ 0x65 :: junk)),
          vdEncPairs ps ++ 0x65 :: junk)) :=
      dictNextR_pair (c := c) (by rw [hhead]; rfl) (by omega)
        (eatStr_encStr hk (vdEnc d ++ (vdEncPairs ps ++ 0x65 :: junk)))
        (eatAnyR_vdEnc d hd (vdEncPairs ps ++ 0x65 :: junk))
    rw [hassoc, rLoop_some hnext,
      @rStep_valOf _ d (vdEncPairs ps ++ 0x65 :: junk) [] _]
    rw [show runRPairs ((k, d) :: ps) st =
      (match rStepD k d st with
       | .ok st2 => runRPairs ps st2
       | .err e => .err e
       | .panic => .panic) from rfl]
    unfold rStepD
    cases hstep : rStep k (valOf d []) st with
    | ok st2 => exact ih hps junk st2
    | err e => rfl
    | panic => rfl

theorem aLoop_encPairs : ∀ (prs : List (Bytes × VDesc)), WfPairs prs →
    ∀ (junk : Bytes) (st : KState),
      aLoop (vdEncPairs prs ++ 0x65 :: junk) st = runAPairs prs st := by
  intro prs
  induction prs with
  | nil =>
    intro h junk st
    exact aLoop_none (dictNextR_stop (by simp [vdEncPairs]))
  | cons p ps ih =>
    intro h junk st
    obtain ⟨k, d⟩ := p
    have hk : k.length < 2 ^ 64 := (h (k, d) (by simp)).1
    have hd : WfV d := (h (k, d) (by simp)).2
    have hps : WfPairs ps := fun q hq => h q (by simp [hq])
    have hassoc : vdEncPairs ((k, d) :: ps) ++ 0x65 :: junk =
        encStr k ++ (vdEnc d ++ (vdEncPairs ps ++ 0x65 :: junk)) := by
      simp [vdEncPairs]
    obtain ⟨c, t, hhead, hd1, hd2⟩ :=
      encStr_append_head k (vdEnc d ++ (vdEncPairs ps ++ 0x65 :: junk))
    have hnext : dictNextR (encStr k ++ (vdEnc d ++ (vdEncPairs ps ++ 0x65 :: junk))) =
        .ok (some ((k, valOf d (vdEncPairs ps ++ 0x65 :: junk)),
          vdEncPairs ps ++ 0x65 :: junk)) :=
      dictNextR_pair (c := c) (by rw [hhead]; rfl) (by omega)
        (eatStr_encStr hk (vdEnc d ++ (vdEncPairs ps ++ 0x65 :: junk)))
        (eatAnyR_vdEnc d hd (vdEncPairs ps ++ 0x65 :: junk))
    rw [hassoc, aLoop_some hnext,
      @aStep_valOf _ d (vdEncPairs ps ++ 0x65 :: junk) [] _]
    rw [show runAPairs ((k, d) :: ps) st =
      (match aStepD k d st with
       | .ok st2 => runAPairs ps st2
       | .err e => .err e
       | .panic => .panic) from rfl]
    unfold aStepD
    cases hstep : aStep k (valOf d []) st with
    | ok st2 => exact ih hps junk st2
    | err e => rfl
    | panic => rfl

theorem krpcStep_valOf (k : Bytes) (d : VDesc) (h : WfV d) (r : Bytes) (st : KState) :
    krpcStep k (valOf d r) st = stepD k d st := by
  unfold krpcStep stepD
  split_ifs
  · cases d <;> rfl
  · cases d <;> rfl
  · cases d with
    | list items =>
      have hmem : ∀ v ∈ items, WfV v := by
        cases h with
        | list _ hm => exact hm
      exact eDetails_enc items hmem r st
    | str s => rfl
    | int i => rfl
    | dict prs => rfl
  · cases d <;> rfl
  · cases d with
    | dict prs =>
      have hmem : WfPairs prs := by
        cases h with
        | dict _ hk hv => exact fun p hp => ⟨hk p hp, hv p hp⟩
      exact rLoop_encPairs prs hmem r st
    | str s => rfl
    | int i => rfl
    | list items => rfl
  · cases d with
    | dict prs =>
      have hmem : WfPairs prs := by
        cases h with
        | dict _ hk hv => exact fun p hp => ⟨hk p hp, hv p hp⟩
      exact aLoop_encPairs prs hmem r st
    | str s => rfl
    | int i => rfl
    | list items => rfl
  · rfl

theorem krpcLoop_encPairs : ∀ (prs : List (Bytes × VDesc)), WfPairs prs →
    ∀ (junk : Bytes) (st : KState),
      krpcLoop (vdEncPairs prs ++ 0x65 :: junk) st = runPairs prs st := by
  intro prs
  induction prs with
  | nil =>
    intro h junk st
    exact krpcLoop_none (dictNextR_stop (by simp [vdEncPairs]))
  | cons p ps ih =>
    intro h junk st
    obtain ⟨k, d⟩ := p
    have hk : k.length < 2 ^ 64 := (h (k, d) (by simp)).1
    have hd : WfV d := (h (k, d) (by simp)).2
    have hps : WfPairs ps := fun q hq => h q (by simp [hq])
    have hassoc : vdEncPairs ((k, d) :: ps) ++ 0x65 :: junk =
        encStr k ++ (vdEnc d ++ (vdEncPairs ps ++ 0x65 :: junk)) := by
      simp [vdEncPairs]
    obtain ⟨c, t, hhead, hd1, hd2⟩ :=
      encStr_append_head k (vdEnc d ++ (vdEncPairs ps ++ 0x65 :: junk))
    have hnext : dictNextR (encStr k ++ (vdEnc d ++ (vdEncPairs ps ++ 0x65 :: junk))) =
        .ok (some ((k, valOf d (vdEncPairs ps ++ 0x65 :: junk)),
          vdEncPairs ps ++ 0x65 :: junk)) :=
      dictNextR_pair (c := c) (by rw [hhead]; rfl) (by omega)
        (eatStr_encStr hk (vdEnc d ++ (vdEncPairs ps ++ 0x65 :: junk)))
        (eatAnyR_vdEnc d hd (vdEncPairs ps ++ 0x65 :: junk))
    rw [hassoc, krpcLoop_some hnext,
      krpcStep_valOf k d hd (vdEncPairs ps ++ 0x65 :: junk) st]
    rw [show runPairs ((k, d) :: ps) st =
      (match stepD k d st with
       | .ok st2 => runPairs ps st2
       | .err e => .err e
       | .panic => .panic) from rfl]
    cases hstep : stepD k d st with
    | ok st2 => exact ih hps junk st2
    | err e => rfl
    | panic => rfl

theorem asDict_enc (prs : List (Bytes × VDesc)) (h : WfPairs prs) :
    asDict (encDatagram prs) = .ok (vdEncPairs prs ++ [0x65]) := by
  have hscan := dictScanR_pairs prs h []
  have hbody := @eatDictR_body _ [] (by simpa using hscan)
  unfold asDict
  rw [show encDatagram prs = 0x64 :: (vdEncPairs prs ++ 0x65 :: []) from by
    simp [encDatagram]]
  rw [hbody]
  simp

theorem asDict_enc_trailing (prs : List (Bytes × VDesc)) (h : WfPairs prs)
    (g : Bytes) (hg : g ≠ []) :
    asDict (0x64 :: vdEncPairs prs ++ 0x65 :: g) = .err .unknownError := by
  have hscan := dictScanR_pairs prs h g
  have hbody := @eatDictR_body _ g hscan
  unfold asDict
  rw [show (0x64 :: vdEncPairs prs ++ 0x65 :: g : Bytes) =
    0x64 :: (vdEncPairs prs ++ 0x65 :: g) from by simp]
  rw [hbody]
  have : g.length > 0 := by
    cases g with
    | nil => exact absurd rfl hg
    | cons a b => simp
  simp [this]

theorem fromBencode_enc (prs : List (Bytes × VDesc)) (h : WfPairs prs) :
    fromBencode (encDatagram prs) =
      (match runPairs prs {} with
       | .ok st => finalizeMessage st
       | .err e => .err e
       | .panic => .panic) := by
  unfold fromBencode
  rw [asDict_enc prs h]
  have hloop := krpcLoop_encPairs prs h [] {}
  dsimp only
  rw [hloop]
  cases hrun : runPairs prs {} with
  | ok st => rfl
  | err e => rfl
  | panic => rfl

theorem decode_errDatagram (tx : Bytes) (code : Int) (msg : Bytes)
    (htx : tx.length < 2 ^ 64) (hcode1 : -(2 ^ 63) ≤ code) (hcode2 : code < 2 ^ 63)
    (hmsg : utf8Valid msg) (hlen : msg.length < 2 ^ 64) :
    fromBencode (errDatagram tx code msg) =
      .ok ⟨tx, .error (mkKRPCError (i64AsU8 code) msg)⟩ := by
  have hwf : WfPairs [([0x65], VDesc.list [.int code, .str msg]),
      ([0x74], VDesc.str tx), ([0x79], VDesc.str [0x65])] := by
    intro p hp
    simp at hp
    rcases hp with h | h | h
    all_goals subst h
    · refine ⟨by norm_num, WfV.list _ ?_⟩
      intro v hv
      simp at hv
      rcases hv with h | h
      all_goals subst h
      · exact WfV.int code hcode1 hcode2
      · exact WfV.str msg hlen
    · exact ⟨by norm_num, WfV.str tx htx⟩
    · exact ⟨by norm_num, WfV.str [0x65] (by norm_num)⟩
  rw [errDatagram, fromBencode_enc _ hwf]
  simp [runPairs, stepD, eDetailsD, hmsg, finalizeMessage]

theorem WfPairs_nil : WfPairs [] := by
  intro p hp
  simp at hp

theorem WfPairs_cons {k : Bytes} {d : VDesc} {ps : List (Bytes × VDesc)}
    (h1 : k.length < 2 ^ 64) (h2 : WfV d) (h3 : WfPairs ps) :
    WfPairs ((k, d) :: ps) := by
  intro p hp
  rcases List.mem_cons.mp hp with h | h
  · subst h
    exact ⟨h1, h2⟩
  · exact h3 p h

theorem WfPairs_append {ps qs : List (Bytes × VDesc)}
    (h1 : WfPairs ps) (h2 : WfPairs qs) : WfPairs (ps ++ qs) := by
  intro p hp
  rcases List.mem_append.mp hp with h | h
  · exact h1 p h
  · exact h2 p h

theorem WfV_dict_of {prs : List (Bytes × VDesc)} (h : WfPairs prs) :
    WfV (.dict prs) :=
  WfV.dict prs (fun p hp => (h p hp).1) (fun p hp => (h p hp).2)

theorem WfPairs_opt {k : Bytes} (hk : k.length < 2 ^ 64) {o : Option Bytes}
    (ho : ∀ x ∈ o, x.length < 2 ^ 64) : WfPairs (optPair k o) := by
  cases o with
  | none => exact WfPairs_nil
  | some x => exact WfPairs_cons hk (WfV.str x (ho x rfl)) WfPairs_nil

theorem runRPairs_respPairs (idO nodesO tokenO : Option Bytes) (st : KState) :
    runRPairs (respPairs idO nodesO tokenO) st =
      .ok { st with
        other_id := (match idO with | some x => to20Bytes x | none => st.other_id),
        nodes := (match nodesO with | some x => some x | none => st.nodes),
        token := (match tokenO with | some x => some x | none => st.token) } := by
  cases st
  rcases idO with _ | id <;> rcases nodesO with _ | ns <;> rcases tokenO with _ | tk <;>
    simp [respPairs, optPair, runRPairs, rStepD, rStep, valOf]

theorem decode_respDatagram (tx : Bytes) (idO nodesO tokenO : Option Bytes)
    (htx : tx.length < 2 ^ 64)
    (hid : ∀ x ∈ idO, x.length < 2 ^ 64)
    (hnodes : ∀ x ∈ nodesO, x.length < 2 ^ 64)
    (htok : ∀ x ∈ tokenO, x.length < 2 ^ 64) :
    fromBencode (respDatagram tx idO nodesO tokenO) =
      finalizeMessage
        { transaction_id := some tx, message_type := .response,
          query_type := .unknown,
          other_id := (match idO with | some x => to20Bytes x | none => none),
          info_hash := none, target := none, token := tokenO,
          nodes := nodesO, error_details := none } := by
  have hwfr : WfPairs (respPairs idO nodesO tokenO) :=
    WfPairs_append
      (WfPairs_append (WfPairs_opt (k := [0x69, 0x64]) (by norm_num) hid)
        (WfPairs_opt (k := [0x6e, 0x6f, 0x64, 0x65, 0x73]) (by norm_num) hnodes))
      (WfPairs_opt (k := [0x74, 0x6f, 0x6b, 0x65, 0x6e]) (by norm_num) htok)
  have hwf : WfPairs [([0x72], .dict (respPairs idO nodesO tokenO)),
      ([0x74], .str tx), ([0x79], .str [0x72])] :=
    WfPairs_cons (by norm_num) (WfV_dict_of hwfr)
      (WfPairs_cons (by norm_num) (WfV.str tx htx)
        (WfPairs_cons (by norm_num) (WfV.str [0x72] (by norm_num)) WfPairs_nil))
  rw [respDatagram, fromBencode_enc _ hwf]
  simp [runPairs, stepD, runRPairs_respPairs]
  rcases idO with _ | id <;> rcases nodesO with _ | ns <;> rcases tokenO with _ | tk <;> rfl

theorem i64AsU8_201 : i64AsU8 201 = 201 := by decide

/-- C1 (amended core): round-trip for every supported message. -/
theorem krpc_roundtrip (m : KRPCMessage) (h : supportedMessage m) :
    fromBencode (toBencode m) = .ok m := by
  obtain ⟨tx, msg⟩ := m
  obtain ⟨htx, hm⟩ := h
  cases msg with
  | error e =>
    cases e with
    | unknownError msg => exact hm.elim
    | genericError msg =>
      obtain ⟨hutf, hlen⟩ := hm
      have henc : toBencode ⟨tx, .error (.genericError msg)⟩ = errDatagram tx 201 msg := by
        simp [toBencode, errDatagram, encDatagram, vdEncPairs, vdEnc, vdEncItems,
          encStr, intRepr, decRepr, decReprAux]
      rw [henc, decode_errDatagram tx 201 msg htx (by norm_num) (by norm_num) hutf hlen,
        show i64AsU8 201 = 201 from by decide]
      simp [mkKRPCError]
    | serverError msg =>
      obtain ⟨hutf, hlen⟩ := hm
      have henc : toBencode ⟨tx, .error (.serverError msg)⟩ = errDatagram tx 202 msg := by
        simp [toBencode, errDatagram, encDatagram, vdEncPairs, vdEnc, vdEncItems,
          encStr, intRepr, decRepr, decReprAux]
      rw [henc, decode_errDatagram tx 202 msg htx (by norm_num) (by norm_num) hutf hlen,
        show i64AsU8 202 = 202 from by decide]
      simp [mkKRPCError]
    | protocolError msg =>
      obtain ⟨hutf, hlen⟩ := hm
      have henc : toBencode ⟨tx, .error (.protocolError msg)⟩ = errDatagram tx 203 msg := by
        simp [toBencode, errDatagram, encDatagram, vdEncPairs, vdEnc, vdEncItems,
          encStr, intRepr, decRepr, decReprAux]
      rw [henc, decode_errDatagram tx 203 msg htx (by norm_num) (by norm_num) hutf hlen,
        show i64AsU8 203 = 203 from by decide]
      simp [mkKRPCError]
    | methodUnknown msg =>
      obtain ⟨hutf, hlen⟩ := hm
      have henc : toBencode ⟨tx, .error (.methodUnknown msg)⟩ = errDatagram tx 204 msg := by
        simp [toBencode, errDatagram, encDatagram, vdEncPairs, vdEnc, vdEncItems,
          encStr, intRepr, decRepr, decReprAux]
      rw [henc, decode_errDatagram tx 204 msg htx (by norm_num) (by norm_num) hutf hlen,
        show i64AsU8 204 = 204 from by decide]
      simp [mkKRPCError]
  | query q =>
    cases q with
    | ping id =>
      have hid : id.length = 20 := hm
      have henc : toBencode ⟨tx, .query (.ping id)⟩ =
          encDatagram [([0x61], .dict [([0x69, 0x64], .str id)]),
            ([0x71], .str [0x70, 0x69, 0x6e, 0x67]),
            ([0x74], .str tx), ([0x79], .str [0x71])] := by
        simp [toBencode, encDatagram, vdEncPairs, vdEnc, vdEncItems, encStr,
          decRepr, decReprAux, hid]
      have hwf : WfPairs [([0x61], VDesc.dict [([0x69, 0x64], .str id)]),
          ([0x71], .str [0x70, 0x69, 0x6e, 0x67]),
          ([0x74], .str tx), ([0x79], .str [0x71])] :=
        WfPairs_cons (by norm_num)
          (WfV_dict_of (WfPairs_cons (by norm_num)
            (WfV.str id (by omega)) WfPairs_nil))
          (WfPairs_cons (by norm_num) (WfV.str _ (by norm_num))
            (WfPairs_cons (by norm_num) (WfV.str tx htx)
              (WfPairs_cons (by norm_num) (WfV.str _ (by norm_num)) WfPairs_nil)))
      rw [henc, fromBencode_enc _ hwf]
      simp [runPairs, stepD, runAPairs, aStepD, aStep, valOf, to20Bytes, hid,
        finalizeMessage]
    | getPeers id ih =>
      obtain ⟨hid, hih⟩ := hm
      have henc : toBencode ⟨tx, .query (.getPeers id ih)⟩ =
          encDatagram [([0x61], .dict [([0x69, 0x64], .str id),
              ([0x69, 0x6e, 0x66, 0x6f, 0x5f, 0x68, 0x61, 0x73, 0x68], .str ih)]),
            ([0x71], .str [0x67, 0x65, 0x74, 0x5f, 0x70, 0x65, 0x65, 0x72, 0x73]),
            ([0x74], .str tx), ([0x79], .str [0x71])] := by
        simp [toBencode, encDatagram, vdEncPairs, vdEnc, vdEncItems, encStr,
          decRepr, decReprAux, hid, hih]
      have hwf : WfPairs [([0x61], VDesc.dict [([0x69, 0x64], .str id),
          ([0x69, 0x6e, 0x66, 0x6f, 0x5f, 0x68, 0x61, 0x73, 0x68], .str ih)]),
          ([0x71], .str [0x67, 0x65, 0x74, 0x5f, 0x70, 0x65, 0x65, 0x72, 0x73]),
          ([0x74], .str tx), ([0x79], .str [0x71])] :=
        WfPairs_cons (by norm_num)
          (WfV_dict_of (WfPairs_cons (by norm_num) (WfV.str id (by omega))
            (WfPairs_cons (by norm_num) (WfV.str ih (by omega)) WfPairs_nil)))
          (WfPairs_cons (by norm_num) (WfV.str _ (by norm_num))
            (WfPairs_cons (by norm_num) (WfV.str tx htx)
              (WfPairs_cons (by norm_num) (WfV.str _ (by norm_num)) WfPairs_nil)))
      rw [henc, fromBencode_enc _ hwf]
      simp [runPairs, stepD, runAPairs, aStepD, aStep, valOf, to20Bytes, hid, hih,
        finalizeMessage]
    | findNode id t =>
      obtain ⟨hid, ht⟩ := hm
      have henc : toBencode ⟨tx, .query (.findNode id t)⟩ =
          encDatagram [([0x61], .dict [([0x69, 0x64], .str id),
              ([0x74, 0x61, 0x72, 0x67, 0x65, 0x74], .str t)]),
            ([0x71], .str [0x66, 0x69, 0x6e, 0x64, 0x5f, 0x6e, 0x6f, 0x64, 0x65]),
            ([0x74], .str tx), ([0x79], .str [0x71])] := by
        simp [toBencode, encDatagram, vdEncPairs, vdEnc, vdEncItems, encStr,
          decRepr, decReprAux, hid, ht]
      have hwf : WfPairs [([0x61], VDesc.dict [([0x69, 0x64], .str id),
          ([0x74, 0x61, 0x72, 0x67, 0x65, 0x74], .str t)]),
          ([0x71], .str [0x66, 0x69, 0x6e, 0x64, 0x5f, 0x6e, 0x6f, 0x64, 0x65]),
          ([0x74], .str tx), ([0x79], .str [0x71])] :=
        WfPairs_cons (by norm_num)
          (WfV_dict_of (WfPairs_cons (by norm_num) (WfV.str id (by omega))
            (WfPairs_cons (by norm_num) (WfV.str t (by omega)) WfPairs_nil)))
          (WfPairs_cons (by norm_num) (WfV.str _ (by norm_num))
            (WfPairs_cons (by norm_num) (WfV.str tx htx)
              (WfPairs_cons (by norm_num) (WfV.str _ (by norm_num)) WfPairs_nil)))
      rw [henc, fromBencode_enc _ hwf]
      simp [runPairs, stepD, runAPairs, aStepD, aStep, valOf, to20Bytes, hid, ht,
        finalizeMessage]
  | response r =>
    cases r with
    | ping id =>
      have hid : id.length = 20 := hm
      have henc : toBencode ⟨tx, .response (.ping id)⟩ =
          respDatagram tx (some id) none none := by
        simp [toBencode, respDatagram, respPairs, optPair, encDatagram, vdEncPairs,
          vdEnc, vdEncItems, encStr, decRepr, decReprAux, hid]
      rw [henc, decode_respDatagram tx (some id) none none htx
        (by intro x hx; simp at hx; subst hx; omega) (by simp) (by simp)]
      simp [finalizeMessage, to20Bytes, hid]
    | findNode id ns =>
      obtain ⟨hid, hns⟩ := hm
      have henc : toBencode ⟨tx, .response (.findNode id ns)⟩ =
          respDatagram tx (some id) (some ns) none := by
        simp [toBencode, respDatagram, respPairs, optPair, encDatagram, vdEncPairs,
          vdEnc, vdEncItems, encStr, decRepr, decReprAux, hid]
      rw [henc, decode_respDatagram tx (some id) (some ns) none htx
        (by intro x hx; simp at hx; subst hx; omega)
        (by intro x hx; simp at hx; subst hx; omega) (by simp)]
      simp [finalizeMessage, to20Bytes, hid]
    | getPeers id tk =>
      obtain ⟨hid, htk⟩ := hm
      have henc : toBencode ⟨tx, .response (.getPeers id tk)⟩ =
          respDatagram tx (some id) none (some tk) := by
        simp [toBencode, respDatagram, respPairs, optPair, encDatagram, vdEncPairs,
          vdEnc, vdEncItems, encStr, decRepr, decReprAux, hid]
      rw [henc, decode_respDatagram tx (some id) none (some tk) htx
        (by intro x hx; simp at hx; subst hx; omega) (by simp)
        (by intro x hx; simp at hx; subst hx; omega)]
      simp [finalizeMessage, to20Bytes, hid]

theorem stepD_unknown {k : Bytes} (d : VDesc) (st : KState)
    (hkt : k ≠ [0x74]) (hky : k ≠ [0x79]) (hke : k ≠ [0x65]) (hkq : k ≠ [0x71])
    (hkr : k ≠ [0x72]) (hka : k ≠ [0x61]) :
    stepD k d st = .ok st := by
  unfold stepD
  rw [if_neg hkt, if_neg hky, if_neg hke, if_neg hkq, if_neg hkr, if_neg hka]

theorem runPairs_append (ps1 ps2 : List (Bytes × VDesc)) (st : KState) :
    runPairs (ps1 ++ ps2) st =
      (match runPairs ps1 st with
       | .ok st2 => runPairs ps2 st2
       | .err e => .err e
       | .panic => .panic) := by
  induction ps1 generalizing st with
  | nil => rfl
  | cons p ps ih =>
    have hL : runPairs ((p :: ps) ++ ps2) st =
        (match stepD p.1 p.2 st with
         | .ok st2 => runPairs (ps ++ ps2) st2
         | .err e => .err e
         | .panic => .panic) := rfl
    have hR : runPairs (p :: ps) st =
        (match stepD p.1 p.2 st with
         | .ok st2 => runPairs ps st2
         | .err e => .err e
         | .panic => .panic) := rfl
    rw [hL, hR]
    cases hs : stepD p.1 p.2 st with
    | ok st2 =>
      dsimp only
      exact ih st2
    | err e => rfl
    | panic => rfl

/-- C1: for every supported KRPC message (Error of the four coded kinds,
Ping/FindNode/GetPeers queries with 20-byte ids, Ping/FindNode/GetPeers
responses), with any transaction id, decoding the encoding yields the
message back.  Amended: `UnknownError` is excluded, because `to_bencode`
emits it with code 201 and it therefore decodes as `GenericError`. -/
theorem c1_krpc_roundtrip (m : KRPCMessage) (h : supportedMessage m) :
    fromBencode (toBencode m) = .ok m :=
  krpc_roundtrip m h

/-- C1 witness: the round trip at a concrete ping query. -/
theorem c1_krpc_roundtrip_witness :
    supportedMessage ⟨[0x61, 0x61], .query (.ping
      [0x61, 0x62, 0x63, 0x64, 0x65, 0x66, 0x67, 0x68, 0x69, 0x6a,
       0x30, 0x31, 0x32, 0x33, 0x34, 0x35, 0x36, 0x37, 0x38, 0x39])⟩ ∧
    fromBencode (toBencode ⟨[0x61, 0x61], .query (.ping
      [0x61, 0x62, 0x63, 0x64, 0x65, 0x66, 0x67, 0x68, 0x69, 0x6a,
       0x30, 0x31, 0x32, 0x33, 0x34, 0x35, 0x36, 0x37, 0x38, 0x39])⟩) =
      .ok ⟨[0x61, 0x61], .query (.ping
        [0x61, 0x62, 0x63, 0x64, 0x65, 0x66, 0x67, 0x68, 0x69, 0x6a,
         0x30, 0x31, 0x32, 0x33, 0x34, 0x35, 0x36, 0x37, 0x38, 0x39])⟩ :=
  ⟨by constructor <;> decide, c1_krpc_roundtrip _ (by constructor <;> decide)⟩

/-- C1 counterexample: an `UnknownError` message does not round-trip; its
encoding (code 201) decodes to `GenericError`. -/
theorem c1_unknownError_cex :
    fromBencode (toBencode ⟨[0x61, 0x61], .error (.unknownError [0x61])⟩) =
      .ok ⟨[0x61, 0x61], .error (.genericError [0x61])⟩ ∧
    KRPCMessage.mk [0x61, 0x61] (.error (.genericError [0x61])) ≠
      KRPCMessage.mk [0x61, 0x61] (.error (.unknownError [0x61])) := by
  constructor
  · have henc : toBencode ⟨[0x61, 0x61], .error (.unknownError [0x61])⟩ =
        errDatagram [0x61, 0x61] 201 [0x61] := by
      simp [toBencode, errDatagram, encDatagram, vdEncPairs, vdEnc, vdEncItems,
        encStr, intRepr, decRepr, decReprAux]
    rw [henc, decode_errDatagram [0x61, 0x61] 201 [0x61] (by norm_num) (by norm_num)
      (by norm_num) (by decide) (by norm_num), show i64AsU8 201 = 201 from by decide]
    simp [mkKRPCError]
  · decide

/-- C2: the claim says the decoding API is total and never panics; in fact
`from_bencode` panics on the empty input, because `eat_dict` begins with
`assert!(self.buffer.len() >= 2)` (marked `TODO: Should be errors` in the
source). -/
theorem c2_fromBencode_empty_panics : fromBencode ([] : Bytes) = .panic := by
  unfold fromBencode asDict eatDictR
  rw [eatDict]
  norm_num [RRes.map]

/-- C3: the claim says `eat_str` returns `InvalidStringLength` when fewer
than `len` bytes remain after the colon; in fact the code calls
`split_at(string_len)`, which panics on the input `5:ab`. -/
theorem c3_eatStr_short_panics :
    eatStr [0x35, 0x3a, 0x61, 0x62] = .panic := by decide

/-- C5 (amended): in a well-formed error datagram the decoded kind is chosen
from the code truncated to `u8` (`v as u8`): Generic for codes ≡ 201
(mod 256), Server for ≡ 202, Protocol for ≡ 203, MethodUnknown for ≡ 204,
and Unknown for every other residue, carrying the message string. -/
theorem c5_error_kind_table (tx : Bytes) (code : Int) (msg : Bytes)
    (htx : tx.length < 2 ^ 64) (hcode1 : -(2 ^ 63) ≤ code) (hcode2 : code < 2 ^ 63)
    (hmsg : utf8Valid msg) (hlen : msg.length < 2 ^ 64) :
    fromBencode (errDatagram tx code msg) =
      .ok ⟨tx, .error
        (if code.emod 256 = 201 then .genericError msg
         else if code.emod 256 = 202 then .serverError msg
         else if code.emod 256 = 203 then .protocolError msg
         else if code.emod 256 = 204 then .methodUnknown msg
         else .unknownError msg)⟩ := by
  rw [decode_errDatagram tx code msg htx hcode1 hcode2 hmsg hlen]
  have hmod : 0 ≤ code.emod 256 := Int.emod_nonneg code (by norm_num)
  unfold mkKRPCError i64AsU8
  split_ifs <;> first | rfl | omega

/-- C5 witness: code 202 decodes as a Server error. -/
theorem c5_error_kind_table_witness :
    fromBencode (errDatagram [0x61, 0x61] 202 [0x61]) =
      .ok ⟨[0x61, 0x61], .error (.serverError [0x61])⟩ := by
  have h := c5_error_kind_table [0x61, 0x61] 202 [0x61] (by norm_num) (by norm_num)
    (by norm_num) (by decide) (by norm_num)
  rw [h]
  norm_num

/-- C5 counterexample: code 457 is not one of 201-204, yet it decodes as a
Generic error (457 mod 256 = 201), not Unknown. -/
theorem c5_code_457_cex :
    fromBencode (errDatagram [0x61, 0x61] 457 [0x61]) =
      .ok ⟨[0x61, 0x61], .error (.genericError [0x61])⟩ ∧
    (457 : Int) ≠ 201 ∧ (457 : Int) ≠ 202 ∧ (457 : Int) ≠ 203 ∧ (457 : Int) ≠ 204 := by
  refine ⟨?_, by norm_num, by norm_num, by norm_num, by norm_num⟩
  rw [decode_errDatagram [0x61, 0x61] 457 [0x61] (by norm_num) (by norm_num)
    (by norm_num) (by decide) (by norm_num), show i64AsU8 457 = 201 from by decide]
  simp [mkKRPCError]

/-- C4: in a well-formed `y = r` datagram the response variant is selected
by field presence in priority order token, nodes, id; with none of them the
decode fails with `MissingRequiredField` (as it also does when the winning
variant's `id` is absent). -/
theorem c4_response_priority (tx : Bytes) (idO nodesO tokenO : Option Bytes)
    (htx : tx.length < 2 ^ 64)
    (hid : ∀ x ∈ idO, x.length = 20)
    (hnodes : ∀ x ∈ nodesO, x.length < 2 ^ 64)
    (htok : ∀ x ∈ tokenO, x.length < 2 ^ 64) :
    fromBencode (respDatagram tx idO nodesO tokenO) =
      (match tokenO with
       | some tk =>
         (match idO with
          | some id => .ok ⟨tx, .response (.getPeers id tk)⟩
          | none => .err .missingRequiredField)
       | none =>
         match nodesO with
         | some ns =>
           (match idO with
            | some id => .ok ⟨tx, .response (.findNode id ns)⟩
            | none => .err .missingRequiredField)
         | none =>
           match idO with
           | some id => .ok ⟨tx, .response (.ping id)⟩
           | none => .err .missingRequiredField) := by
  rw [decode_respDatagram tx idO nodesO tokenO htx
    (by intro x hx; rw [hid x hx]; norm_num) hnodes htok]
  rcases idO with _ | id <;> rcases nodesO with _ | ns <;> rcases tokenO with _ | tk <;>
    simp_all [finalizeMessage, to20Bytes]

/-- C4 witness: token presence wins over nodes. -/
theorem c4_response_priority_witness :
    fromBencode (respDatagram [0x61, 0x61]
      (some [0x61, 0x62, 0x63, 0x64, 0x65, 0x66, 0x67, 0x68, 0x69, 0x6a,
        0x30, 0x31, 0x32, 0x33, 0x34, 0x35, 0x36, 0x37, 0x38, 0x39])
      (some [0x6e, 0x6e]) (some [0x74, 0x6b])) =
      .ok ⟨[0x61, 0x61], .response (.getPeers
        [0x61, 0x62, 0x63, 0x64, 0x65, 0x66, 0x67, 0x68, 0x69, 0x6a,
         0x30, 0x31, 0x32, 0x33, 0x34, 0x35, 0x36, 0x37, 0x38, 0x39]
        [0x74, 0x6b])⟩ := by
  have h := c4_response_priority [0x61, 0x61]
    (some [0x61, 0x62, 0x63, 0x64, 0x65, 0x66, 0x67, 0x68, 0x69, 0x6a,
      0x30, 0x31, 0x32, 0x33, 0x34, 0x35, 0x36, 0x37, 0x38, 0x39])
    (some [0x6e, 0x6e]) (some [0x74, 0x6b]) (by norm_num)
    (by intro x hx; simp at hx; subst hx; rfl)
    (by intro x hx; simp at hx; subst hx; norm_num)
    (by intro x hx; simp at hx; subst hx; norm_num)
  rw [h]

/-- C9: inserting a top-level entry whose key is none of `t`, `y`, `e`,
`q`, `r`, `a` anywhere in a well-formed datagram does not change the decode
result. -/
theorem c9_unknown_key_ignored (ps1 ps2 : List (Bytes × VDesc)) (k : Bytes) (d : VDesc)
    (h1 : WfPairs ps1) (h2 : WfPairs ps2) (hk : k.length < 2 ^ 64) (hd : WfV d)
    (hkt : k ≠ [0x74]) (hky : k ≠ [0x79]) (hke : k ≠ [0x65]) (hkq : k ≠ [0x71])
    (hkr : k ≠ [0x72]) (hka : k ≠ [0x61]) :
    fromBencode (encDatagram (ps1 ++ (k, d) :: ps2)) =
      fromBencode (encDatagram (ps1 ++ ps2)) := by
  have hwfA : WfPairs (ps1 ++ (k, d) :: ps2) :=
    WfPairs_append h1 (WfPairs_cons hk hd h2)
  have hwfB : WfPairs (ps1 ++ ps2) := WfPairs_append h1 h2
  rw [fromBencode_enc _ hwfA, fromBencode_enc _ hwfB]
  have hrun : ∀ st, runPairs (ps1 ++ (k, d) :: ps2) st = runPairs (ps1 ++ ps2) st := by
    intro st
    rw [runPairs_append, runPairs_append]
    cases h1run : runPairs ps1 st with
    | ok st2 =>
      have : runPairs ((k, d) :: ps2) st2 = runPairs ps2 st2 := by
        show (match stepD k d st2 with
          | .ok st3 => runPairs ps2 st3
          | .err e => .err e
          | .panic => .panic) = runPairs ps2 st2
        rw [stepD_unknown d st2 hkt hky hke hkq hkr hka]
      dsimp only
      exact this
    | err e => rfl
    | panic => rfl
  rw [hrun {}]

/-- C9 witness: a concrete datagram with and without an extra `zz` key. -/
theorem c9_unknown_key_ignored_witness :
    fromBencode (encDatagram ([([0x74], .str [0x61, 0x61])] ++
      ([0x7a, 0x7a], VDesc.int 7) :: [([0x79], .str [0x65]),
        ([0x65], .list [.int 201, .str []])])) =
      fromBencode (encDatagram ([([0x74], .str [0x61, 0x61])] ++
        [([0x79], .str [0x65]), ([0x65], .list [.int 201, .str []])])) := by
  refine c9_unknown_key_ignored [([0x74], .str [0x61, 0x61])]
    [([0x79], .str [0x65]), ([0x65], .list [.int 201, .str []])]
    [0x7a, 0x7a] (VDesc.int 7) ?_ ?_ (by norm_num) (WfV.int 7 (by norm_num) (by norm_num))
    (by decide) (by decide) (by decide) (by decide) (by decide) (by decide)
  · exact WfPairs_cons (by norm_num) (WfV.str _ (by norm_num)) WfPairs_nil
  · refine WfPairs_cons (by norm_num) (WfV.str _ (by norm_num))
      (WfPairs_cons (by norm_num) ?_ WfPairs_nil)
    refine WfV.list _ ?_
    intro v hv
    simp at hv
    rcases hv with h | h
    all_goals subst h
    · exact WfV.int 201 (by norm_num) (by norm_num)
    · exact WfV.str [] (by norm_num)

/-- C10: a complete well-formed top-level dictionary followed by at least
one trailing byte is rejected with `UnknownError`: the dictionary must span
the whole datagram. -/
theorem c10_trailing_garbage (prs : List (Bytes × VDesc)) (h : WfPairs prs)
    (g : Bytes) (hg : g ≠ []) :
    fromBencode (0x64 :: vdEncPairs prs ++ 0x65 :: g) = .err .unknownError := by
  unfold fromBencode
  rw [asDict_enc_trailing prs h g hg]

/-- C10 witness: the two-byte dictionary `de` followed by a stray byte. -/
theorem c10_trailing_garbage_witness :
    fromBencode [0x64, 0x65, 0x65] = .err .unknownError :=
  c10_trailing_garbage [] WfPairs_nil [0x65] (by decide)

/-- C7: the claim says `xt` and `dn` keys with the same file index merge
regardless of order; in fact when `dn` precedes `xt` the display name is
lost, because the `dn` branch's `None` arm builds a `MagnetFile`, sets its
name and never inserts it into the map (`src/magnet.rs:266-270`).  With
`xt` first the merge works. -/
theorem c7_dn_before_xt_dropped :
    magnetFilesFromStr
      [0x6d, 0x61, 0x67, 0x6e, 0x65, 0x74, 0x3a, 0x3f, 0x64, 0x6e, 0x3d, 0x66, 0x6f, 0x6f, 0x26, 0x78, 0x74, 0x3d, 0x75, 0x72, 0x6e, 0x3a, 0x6d, 0x64, 0x35, 0x3a, 0x63, 0x31, 0x32, 0x66, 0x65, 0x31, 0x63, 0x30, 0x36, 0x62, 0x62, 0x61, 0x32, 0x35, 0x34, 0x61, 0x39, 0x64, 0x63, 0x39, 0x66, 0x35, 0x31, 0x39, 0x62, 0x33, 0x33, 0x35, 0x61, 0x61, 0x37, 0x63] =
      .ok [⟨.md5 [0xc1, 0x2f, 0xe1, 0xc0, 0x6b, 0xba, 0x25, 0x4a, 0x9d, 0xc9, 0xf5, 0x19, 0xb3, 0x35, 0xaa, 0x7c], []⟩] ∧
    magnetFilesFromStr
      [0x6d, 0x61, 0x67, 0x6e, 0x65, 0x74, 0x3a, 0x3f, 0x78, 0x74, 0x3d, 0x75, 0x72, 0x6e, 0x3a, 0x6d, 0x64, 0x35, 0x3a, 0x63, 0x31, 0x32, 0x66, 0x65, 0x31, 0x63, 0x30, 0x36, 0x62, 0x62, 0x61, 0x32, 0x35, 0x34, 0x61, 0x39, 0x64, 0x63, 0x39, 0x66, 0x35, 0x31, 0x39, 0x62, 0x33, 0x33, 0x35, 0x61, 0x61, 0x37, 0x63, 0x26, 0x64, 0x6e, 0x3d, 0x66, 0x6f, 0x6f] =
      .ok [⟨.md5 [0xc1, 0x2f, 0xe1, 0xc0, 0x6b, 0xba, 0x25, 0x4a, 0x9d, 0xc9, 0xf5, 0x19, 0xb3, 0x35, 0xaa, 0x7c],
        [0x66, 0x6f, 0x6f]⟩] := by
  constructor <;> rfl

/-- The full formula computed by `node_id`: the first three bytes from the
CRC32C of the masked IP, the rest the untouched seed bytes. -/
theorem nodeId_formula : ∀ ip seed : Bytes, ip.length = 4 → seed.length = 20 →
    nodeId ip seed =
      [crc32c [(0x03 &&& ip.getD 0 0) ||| seed.getD 19 0 % 8 * 32,
          0x0f &&& ip.getD 1 0, 0x3f &&& ip.getD 2 0, 0xff &&& ip.getD 3 0] /
          2 ^ 24 % 256,
       crc32c [(0x03 &&& ip.getD 0 0) ||| seed.getD 19 0 % 8 * 32,
          0x0f &&& ip.getD 1 0, 0x3f &&& ip.getD 2 0, 0xff &&& ip.getD 3 0] /
          2 ^ 16 % 256,
       (crc32c [(0x03 &&& ip.getD 0 0) ||| seed.getD 19 0 % 8 * 32,
          0x0f &&& ip.getD 1 0, 0x3f &&& ip.getD 2 0, 0xff &&& ip.getD 3 0] /
          2 ^ 8 % 256 &&& 0xf8) ||| seed.getD 2 0 % 8] ++ seed.drop 3 := by
  intro ip seed hip hseed
  rcases seed with _ | ⟨s0, seed⟩
  · simp at hseed
  rcases seed with _ | ⟨s1, seed⟩
  · simp at hseed
  rcases seed with _ | ⟨s2, seed⟩
  · simp at hseed
  simp [nodeId, List.getD]

/-- The masked-IP input for the BEP 42 test vector. -/
theorem bep42_masked_input :
    [3 &&& 124 ||| 1 * 32, 15 &&& 31, 63 &&& 75, 255 &&& 21] =
      ([32, 15, 11, 21] : Bytes) := by decide

theorem bep42_crc_byte0 : crc32c [32, 15, 11, 21] / 2 ^ 24 % 256 = 0x5f := by decide

theorem bep42_crc_byte1 : crc32c [32, 15, 11, 21] / 2 ^ 16 % 256 = 0xbf := by decide

theorem bep42_crc_byte2 : crc32c [32, 15, 11, 21] / 2 ^ 8 % 256 &&& 0xf8 = 0xb8 := by
  decide

theorem getD3_zero (a b c : Nat) (l : Bytes) :
    (([a, b, c] ++ l) : Bytes).getD 0 0 = a := rfl

theorem getD3_one (a b c : Nat) (l : Bytes) :
    (([a, b, c] ++ l) : Bytes).getD 1 0 = b := rfl

theorem getD3_two (a b c : Nat) (l : Bytes) :
    (([a, b, c] ++ l) : Bytes).getD 2 0 = c := rfl

/-- First byte of the BEP 42 vector. -/
theorem nodeId_vector_b0 (seed : Bytes) (hlen : seed.length = 20)
    (hr : seed.getD 19 0 % 8 = 1) :
    (nodeId [124, 31, 75, 21] seed).getD 0 0 = 0x5f := by
  rw [nodeId_formula [124, 31, 75, 21] seed rfl hlen, hr, getD3_zero,
    show [3 &&& List.getD [124, 31, 75, 21] 0 0 ||| 1 * 32,
      15 &&& List.getD [124, 31, 75, 21] 1 0, 63 &&& List.getD [124, 31, 75, 21] 2 0,
      255 &&& List.getD [124, 31, 75, 21] 3 0] = ([32, 15, 11, 21] : Bytes) from by decide]
  exact bep42_crc_byte0

/-- Second byte of the BEP 42 vector. -/
theorem nodeId_vector_b1 (seed : Bytes) (hlen : seed.length = 20)
    (hr : seed.getD 19 0 % 8 = 1) :
    (nodeId [124, 31, 75, 21] seed).getD 1 0 = 0xbf := by
  rw [nodeId_formula [124, 31, 75, 21] seed rfl hlen, hr, getD3_one,
    show [3 &&& List.getD [124, 31, 75, 21] 0 0 ||| 1 * 32,
      15 &&& List.getD [124, 31, 75, 21] 1 0, 63 &&& List.getD [124, 31, 75, 21] 2 0,
      255 &&& List.getD [124, 31, 75, 21] 3 0] = ([32, 15, 11, 21] : Bytes) from by decide]
  exact bep42_crc_byte1

/-- Third byte of the BEP 42 vector, low 3 bits masked off. -/
theorem nodeId_vector_b2 (seed : Bytes) (hlen : seed.length = 20)
    (hr : seed.getD 19 0 % 8 = 1) :
    ((nodeId [124, 31, 75, 21] seed).getD 2 0 &&& 0xf8) = 0xb8 := by
  rw [nodeId_formula [124, 31, 75, 21] seed rfl hlen, hr, getD3_two,
    show [3 &&& List.getD [124, 31, 75, 21] 0 0 ||| 1 * 32,
      15 &&& List.getD [124, 31, 75, 21] 1 0, 63 &&& List.getD [124, 31, 75, 21] 2 0,
      255 &&& List.getD [124, 31, 75, 21] 3 0] = ([32, 15, 11, 21] : Bytes) from by decide,
    bep42_crc_byte2]
  have h8 : seed.getD 2 0 % 8 < 8 := Nat.mod_lt _ (by norm_num)
  set k := seed.getD 2 0 % 8 with hk
  interval_cases k <;> decide

/-- The BEP 42 test vector for IP `124.31.75.21`, `r = 1`. -/
theorem nodeId_vector (seed : Bytes) (hlen : seed.length = 20)
    (hr : seed.getD 19 0 % 8 = 1) :
    (nodeId [124, 31, 75, 21] seed).getD 0 0 = 0x5f ∧
    (nodeId [124, 31, 75, 21] seed).getD 1 0 = 0xbf ∧
    ((nodeId [124, 31, 75, 21] seed).getD 2 0 &&& 0xf8) = 0xb8 :=
  ⟨nodeId_vector_b0 seed hlen hr, nodeId_vector_b1 seed hlen hr,
    nodeId_vector_b2 seed hlen hr⟩

/-- C8: the derived node ID overwrites the first three seed bytes with the
CRC32C of the masked IP (`r = seed[19] & 7` folded into bits 5-7 of the
first masked byte), keeps the low 3 bits of seed byte 2 and all of bytes
3..19; in particular for IP `124.31.75.21` with `r = 1` the first three
bytes, with the low 3 bits of byte 2 masked off, are `5f bf b8`. -/
theorem c8_nodeId_bep42 :
    (∀ ip seed : Bytes, ip.length = 4 → seed.length = 20 →
      nodeId ip seed =
        [crc32c [(0x03 &&& ip.getD 0 0) ||| seed.getD 19 0 % 8 * 32,
            0x0f &&& ip.getD 1 0, 0x3f &&& ip.getD 2 0, 0xff &&& ip.getD 3 0] /
            2 ^ 24 % 256,
         crc32c [(0x03 &&& ip.getD 0 0) ||| seed.getD 19 0 % 8 * 32,
            0x0f &&& ip.getD 1 0, 0x3f &&& ip.getD 2 0, 0xff &&& ip.getD 3 0] /
            2 ^ 16 % 256,
         (crc32c [(0x03 &&& ip.getD 0 0) ||| seed.getD 19 0 % 8 * 32,
            0x0f &&& ip.getD 1 0, 0x3f &&& ip.getD 2 0, 0xff &&& ip.getD 3 0] /
            2 ^ 8 % 256 &&& 0xf8) ||| seed.getD 2 0 % 8] ++ seed.drop 3) ∧
    (∀ seed : Bytes, seed.length = 20 → seed.getD 19 0 % 8 = 1 →
      (nodeId [124, 31, 75, 21] seed).getD 0 0 = 0x5f ∧
      (nodeId [124, 31, 75, 21] seed).getD 1 0 = 0xbf ∧
      ((nodeId [124, 31, 75, 21] seed).getD 2 0 &&& 0xf8) = 0xb8) :=
  ⟨nodeId_formula, nodeId_vector⟩

/-- C8 witness: the BEP 42 vector at a concrete seed. -/
theorem c8_nodeId_bep42_witness :
    (nodeId [124, 31, 75, 21]
      [0, 0, 0, 0, 0, 0, 0, 0, 0, 0, 0, 0, 0, 0, 0, 0, 0, 0, 0, 1]).getD 0 0 = 0x5f ∧
    (nodeId [124, 31, 75, 21]
      [0, 0, 0, 0, 0, 0, 0, 0, 0, 0, 0, 0, 0, 0, 0, 0, 0, 0, 0, 1]).getD 1 0 = 0xbf ∧
    ((nodeId [124, 31, 75, 21]
      [0, 0, 0, 0, 0, 0, 0, 0, 0, 0, 0, 0, 0, 0, 0, 0, 0, 0, 0, 1]).getD 2 0 &&& 0xf8) =
      0xb8 :=
  c8_nodeId_bep42.2 [0, 0, 0, 0, 0, 0, 0, 0, 0, 0, 0, 0, 0, 0, 0, 0, 0, 0, 0, 1]
    (by decide) (by decide)

theorem destructureByte_eq_none {off b : Nat} :
    destructureByte off b = none ↔ base32DecodeChar b = none := by
  unfold destructureByte
  cases h : base32DecodeChar b <;> simp [h]

theorem b32Main_classify (bytes : Bytes) : ∀ (count start : Nat) (out : List Nat),
    (b32Main bytes start count out = .error .invalidHashCharacter ∧
      ∃ j, j < count ∧ base32DecodeChar (bytes.getD (start + j) 0) = none) ∨
    ((∃ out2, b32Main bytes start count out = .ok out2) ∧
      ∀ j, j < count → base32DecodeChar (bytes.getD (start + j) 0) ≠ none) := by
  intro count
  induction count with
  | zero =>
    intro start out
    right
    exact ⟨⟨out, rfl⟩, by omega⟩
  | succ n ih =>
    intro start out
    cases hdb : destructureByte (start % 8) (bytes.getD start 0) with
    | none =>
      left
      refine ⟨?_, 0, by omega, by
        rw [Nat.add_zero]
        exact destructureByte_eq_none.mp hdb⟩
      show (match destructureByte (start % 8) (bytes.getD start 0) with
        | none => (.error .invalidHashCharacter : Except EncodingError (List Nat))
        | some td =>
          b32Main bytes (start + 1) n
            (((out.set (start * 5 / 8) (out.getD (start * 5 / 8) 0 ||| td.1))).set
              (start * 5 / 8 + 1)
              (((out.set (start * 5 / 8) (out.getD (start * 5 / 8) 0 ||| td.1))).getD
                (start * 5 / 8 + 1) 0 ||| td.2))) = .error .invalidHashCharacter
      rw [hdb]
    | some td =>
      have hne : base32DecodeChar (bytes.getD start 0) ≠ none := by
        intro hc
        rw [destructureByte_eq_none.mpr hc] at hdb
        exact absurd hdb (by simp)
      have hstep : b32Main bytes start (n + 1) out =
          b32Main bytes (start + 1) n
            (((out.set (start * 5 / 8) (out.getD (start * 5 / 8) 0 ||| td.1))).set
              (start * 5 / 8 + 1)
              (((out.set (start * 5 / 8) (out.getD (start * 5 / 8) 0 ||| td.1))).getD
                (start * 5 / 8 + 1) 0 ||| td.2)) := by
        show (match destructureByte (start % 8) (bytes.getD start 0) with
          | none => (.error .invalidHashCharacter : Except EncodingError (List Nat))
          | some td =>
            b32Main bytes (start + 1) n
              (((out.set (start * 5 / 8) (out.getD (start * 5 / 8) 0 ||| td.1))).set
                (start * 5 / 8 + 1)
                (((out.set (start * 5 / 8) (out.getD (start * 5 / 8) 0 ||| td.1))).getD
                  (start * 5 / 8 + 1) 0 ||| td.2))) = _
        rw [hdb]
      rcases ih (start + 1)
        (((out.set (start * 5 / 8) (out.getD (start * 5 / 8) 0 ||| td.1))).set
          (start * 5 / 8 + 1)
          (((out.set (start * 5 / 8) (out.getD (start * 5 / 8) 0 ||| td.1))).getD
            (start * 5 / 8 + 1) 0 ||| td.2)) with h | h
      · left
        obtain ⟨herr, j, hj, hnone⟩ := h
        refine ⟨by rw [hstep]; exact herr, j + 1, by omega, ?_⟩
        have : start + 1 + j = start + (j + 1) := by omega
        rw [← this]
        exact hnone
      · right
        obtain ⟨⟨out2, hok⟩, hall⟩ := h
        refine ⟨⟨out2, by rw [hstep]; exact hok⟩, ?_⟩
        intro j hj
        cases j with
        | zero => simpa using hne
        | succ jj =>
          have : start + (jj + 1) = start + 1 + jj := by omega
          rw [this]
          exact hall jj (by omega)

theorem b32Tail_classify (bytes : Bytes) : ∀ (count start : Nat) (out : List Nat),
    (b32Tail bytes start count out = .error .invalidHashCharacter ∧
      ∃ j, j < count ∧ (base32DecodeChar (bytes.getD (start + j) 0) = none ∨
        ∃ p, destructureByte ((start + j) % 8) (bytes.getD (start + j) 0) = some p ∧
          p.2 ≠ 0)) ∨
    ((∃ out2, b32Tail bytes start count out = .ok out2) ∧
      ∀ j, j < count → base32DecodeChar (bytes.getD (start + j) 0) ≠ none ∧
        ∀ p, destructureByte ((start + j) % 8) (bytes.getD (start + j) 0) = some p →
          p.2 = 0) := by
  intro count
  induction count with
  | zero =>
    intro start out
    right
    exact ⟨⟨out, rfl⟩, by omega⟩
  | succ n ih =>
    intro start out
    have hstep : b32Tail bytes start (n + 1) out =
        (match destructureByte (start % 8) (bytes.getD start 0) with
        | none => (.error .invalidHashCharacter : Except EncodingError (List Nat))
        | some td =>
          if td.2 ≠ 0 then .error .invalidHashCharacter
          else b32Tail bytes (start + 1) n
            (out.set (start * 5 / 8) (out.getD (start * 5 / 8) 0 ||| td.1))) := rfl
    cases hdb : destructureByte (start % 8) (bytes.getD start 0) with
    | none =>
      left
      refine ⟨by rw [hstep, hdb], 0, by omega, ?_⟩
      rw [Nat.add_zero]
      exact Or.inl (destructureByte_eq_none.mp hdb)
    | some td =>
      have hne : base32DecodeChar (bytes.getD start 0) ≠ none := by
        intro hc
        rw [destructureByte_eq_none.mpr hc] at hdb
        exact absurd hdb (by simp)
      by_cases hz : td.2 = 0
      · have hstep2 : b32Tail bytes start (n + 1) out =
            b32Tail bytes (start + 1) n
              (out.set (start * 5 / 8) (out.getD (start * 5 / 8) 0 ||| td.1)) := by
          rw [hstep, hdb]
          simp [hz]
        rcases ih (start + 1)
          (out.set (start * 5 / 8) (out.getD (start * 5 / 8) 0 ||| td.1)) with h | h
        · left
          obtain ⟨herr, j, hj, hbad⟩ := h
          refine ⟨by rw [hstep2]; exact herr, j + 1, by omega, ?_⟩
          have he : start + (j + 1) = start + 1 + j := by omega
          rw [he]
          exact hbad
        · right
          obtain ⟨⟨out2, hok⟩, hall⟩ := h
          refine ⟨⟨out2, by rw [hstep2]; exact hok⟩, ?_⟩
          intro j hj
          cases j with
          | zero =>
            refine ⟨by simpa using hne, ?_⟩
            intro p hp
            rw [Nat.add_zero] at hp
            rw [hdb] at hp
            cases hp
            exact hz
          | succ jj =>
            have he : start + (jj + 1) = start + 1 + jj := by omega
            rw [he]
            exact hall jj (by omega)
      · left
        refine ⟨by rw [hstep, hdb]; simp [hz], 0, by omega, ?_⟩
        rw [Nat.add_zero]
        exact Or.inr ⟨td, hdb, hz⟩

theorem b32Pad_classify (bytes : Bytes) : ∀ (count start : Nat),
    (b32Pad bytes start count = .error .invalidHashCharacter ∧
      ∃ j, j < count ∧ bytes.getD (start + j) 0 ≠ 0x3d) ∨
    (b32Pad bytes start count = .ok () ∧
      ∀ j, j < count → bytes.getD (start + j) 0 = 0x3d) := by
  intro count
  induction count with
  | zero =>
    intro start
    right
    exact ⟨rfl, by omega⟩
  | succ n ih =>
    intro start
    have hstep : b32Pad bytes start (n + 1) =
        (if bytes.getD start 0 ≠ 0x3d then (.error .invalidHashCharacter :
            Except EncodingError Unit)
          else b32Pad bytes (start + 1) n) := rfl
    by_cases hpad : bytes.getD start 0 = 0x3d
    · have hstep2 : b32Pad bytes start (n + 1) = b32Pad bytes (start + 1) n := by
        rw [hstep, if_neg (not_not_intro hpad)]
      rcases ih (start + 1) with h | h
      · left
        obtain ⟨herr, j, hj, hbad⟩ := h
        refine ⟨by rw [hstep2]; exact herr, j + 1, by omega, ?_⟩
        have he : start + (j + 1) = start + 1 + j := by omega
        rw [he]
        exact hbad
      · right
        obtain ⟨hok, hall⟩ := h
        refine ⟨by rw [hstep2]; exact hok, ?_⟩
        intro j hj
        cases j with
        | zero => simpa using hpad
        | succ jj =>
          have he : start + (jj + 1) = start + 1 + jj := by omega
          rw [he]
          exact hall jj (by omega)
    · left
      refine ⟨by rw [hstep, if_pos hpad], 0, by omega, by simpa using hpad⟩

/-- C6 (amended): for a datagram of the expected length, `bytes_from_base32`
returns `InvalidHashCharacter` exactly when some character in the main
region fails `base32_decode_char`, or a character overlapping the final
output byte has a nonzero low contribution, or a character of the padding
region is not `=` (0x3d).  The code's `base32_decode_char` ranges are
wider than the base32 alphabet, so "a character outside the alphabet" in
the spec's sense is neither necessary nor sufficient. -/
theorem c6_base32_invalid_char_iff (LEN : Nat) (enc : Bytes)
    (hpos : 0 < LEN) (hlen : enc.length = (LEN + 4) / 5 * 8) :
    (bytesFromBase32 LEN enc = .error .invalidHashCharacter ↔
      ((∃ i, i < (LEN * 8 + 4) / 5 ∧ base32DecodeChar (enc.getD i 0) = none) ∨
       (∃ i, ((LEN - 1) * 8 + 4) / 5 ≤ i ∧ i < (LEN * 8 + 4) / 5 ∧
         ∃ p, destructureByte (i % 8) (enc.getD i 0) = some p ∧ p.2 ≠ 0) ∨
       (∃ i, (LEN * 8 + 4) / 5 ≤ i ∧ i < enc.length ∧ enc.getD i 0 ≠ 0x3d))) := by
  have hle : ((LEN - 1) * 8 + 4) / 5 ≤ (LEN * 8 + 4) / 5 := by omega
  have hfp : (LEN * 8 + 4) / 5 ≤ (LEN + 4) / 5 * 8 := by omega
  have hred : bytesFromBase32 LEN enc =
      (match b32Main enc 0 (((LEN - 1) * 8 + 4) / 5) (List.replicate LEN 0) with
      | .error e => .error e
      | .ok out1 =>
        match b32Tail enc (((LEN - 1) * 8 + 4) / 5)
            ((LEN * 8 + 4) / 5 - ((LEN - 1) * 8 + 4) / 5) out1 with
        | .error e => .error e
        | .ok out2 =>
          match b32Pad enc ((LEN * 8 + 4) / 5) (enc.length - (LEN * 8 + 4) / 5) with
          | .error e => .error e
          | .ok _ => .ok out2) := by
    unfold bytesFromBase32
    rw [if_neg (not_not_intro hlen)]
  rcases b32Main_classify enc (((LEN - 1) * 8 + 4) / 5) 0 (List.replicate LEN 0) with
    ⟨hmerr, j, hj, hjn⟩ | ⟨⟨out1, hmok⟩, hmall⟩
  · rw [hred, hmerr]
    constructor
    · intro _
      refine Or.inl ⟨j, by omega, ?_⟩
      have h2 := hjn
      rw [Nat.zero_add] at h2
      exact h2
    · intro _
      rfl
  · rcases b32Tail_classify enc ((LEN * 8 + 4) / 5 - ((LEN - 1) * 8 + 4) / 5)
      (((LEN - 1) * 8 + 4) / 5) out1 with ⟨hterr, j, hj, hjbad⟩ | ⟨⟨out2, htok⟩, htall⟩
    · rw [hred, hmok]
      dsimp only
      rw [hterr]
      constructor
      · intro _
        rcases hjbad with hnone | hnz
        · exact Or.inl ⟨((LEN - 1) * 8 + 4) / 5 + j, by omega, hnone⟩
        · exact Or.inr (Or.inl ⟨((LEN - 1) * 8 + 4) / 5 + j, by omega, by omega, hnz⟩)
      · intro _
        rfl
    · rcases b32Pad_classify enc (enc.length - (LEN * 8 + 4) / 5) ((LEN * 8 + 4) / 5) with
        ⟨hperr, j, hj, hjbad⟩ | ⟨hpok, hpall⟩
      · rw [hred, hmok]
        dsimp only
        rw [htok]
        dsimp only
        rw [hperr]
        constructor
        · intro _
          exact Or.inr (Or.inr ⟨(LEN * 8 + 4) / 5 + j, by omega, by omega, hjbad⟩)
        · intro _
          rfl
      · rw [hred, hmok]
        dsimp only
        rw [htok]
        dsimp only
        rw [hpok]
        constructor
        · intro hcontra
          exact absurd hcontra (by simp)
        · intro hrhs
          exfalso
          rcases hrhs with ⟨i, hi, hnone⟩ | ⟨i, hi1, hi2, p, hp, hpz⟩ | ⟨i, hi1, hi2, hne⟩
          · by_cases hcase : i < ((LEN - 1) * 8 + 4) / 5
            · have h2 := hmall i hcase
              rw [Nat.zero_add] at h2
              exact h2 hnone
            · have h2 := (htall (i - ((LEN - 1) * 8 + 4) / 5) (by omega)).1
              have he : ((LEN - 1) * 8 + 4) / 5 + (i - ((LEN - 1) * 8 + 4) / 5) = i := by
                omega
              rw [he] at h2
              exact h2 hnone
          · have h2 := (htall (i - ((LEN - 1) * 8 + 4) / 5) (by omega)).2
            have he : ((LEN - 1) * 8 + 4) / 5 + (i - ((LEN - 1) * 8 + 4) / 5) = i := by
              omega
            rw [he] at h2
            exact hpz (h2 p hp)
          · have h2 := hpall (i - (LEN * 8 + 4) / 5) (by omega)
            have he : (LEN * 8 + 4) / 5 + (i - (LEN * 8 + 4) / 5) = i := by omega
            rw [he] at h2
            exact hne h2

/-- C6 counterexample: the byte 0x5b (the character between `Z` and `a` in
ASCII, outside the base32 alphabet) is accepted by the decoder because
`base32_decode_char` matches it in the range `0x61..0x87` after adding 26,
so `bytes_from_base32` succeeds on an input containing a character outside
the alphabet. -/
theorem c6_loose_alphabet_cex :
    bytesFromBase32 1 [0x5b, 0x41, 0x3d, 0x3d, 0x3d, 0x3d, 0x3d, 0x3d] =
      .ok [0xd0] ∧ ¬ specB32Alphabet 0x5b := by
  constructor
  · rfl
  · decide

theorem c6_base32_invalid_char_iff_witness :
    bytesFromBase32 1 [0x21, 0x41, 0x3d, 0x3d, 0x3d, 0x3d, 0x3d, 0x3d] =
      .error .invalidHashCharacter :=
  (c6_base32_invalid_char_iff 1 [0x21, 0x41, 0x3d, 0x3d, 0x3d, 0x3d, 0x3d, 0x3d]
    (by decide) (by decide)).mpr (Or.inl ⟨0, by decide, by decide⟩)
